import Mathlib

/-!
# rlpgen type lookup and driver, TransactionFast accessors and JSON decoding

A shallow embedding of three source files of the repository:

* `rlp/rlpgen/main.go` (`lookupType`, `lookupStructType`, `Config.process`, `main`),
* `core/types/transaction_fast.go` (`Cost`, `TxDifferenceFast`),
* `core/types/transaction_fast_marshalling.go` (`UnmarshalJSON`).

Go calls that can abort with a run-time panic are modelled with `Run`; Go
`(value, error)` results are modelled with `Except` where every return
statement sets exactly one of the two, and with an explicit pair otherwise.
-/

namespace Go

/-- Outcome of a Go call: it returns a value, or it aborts with a run-time panic. -/
inductive Run (α : Type) where
  | ret (v : α)
  | panic
  deriving DecidableEq, Repr

end Go

namespace Rlpgen

open Go

/-! ## go/types, as far as `main.go` inspects it -/

/-- Structural (unnamed) Go types, by the go/types class they belong to. Component
types are kept as printed type expressions; the lookup code never descends into them. -/
inductive Shape where
  | basic (name : String)
  | struct (fields : List (String × String))
  | pointer (elem : String)
  | slice (elem : String)
  | array (len : Nat) (elem : String)
  | map (key : String) (elem : String)
  | chan (elem : String)
  | signature (text : String)
  | interface (methods : List String)
  deriving DecidableEq, Repr

/-- A `*types.Named`: a defined type, with its name and its resolved underlying type. -/
structure Named where
  name : String
  underlying : Shape
  deriving DecidableEq, Repr

/-- A `types.Type` value as a `TypeName` object can carry it: a defined type, an
unnamed type (what an alias declaration of an unnamed type denotes), or a
`*types.Alias` node (how newer go/types versions represent every alias declaration). -/
inductive GoType where
  | named (n : Named)
  | unnamed (s : Shape)
  | aliasNode (name : String) (actual : Shape)
  deriving DecidableEq, Repr

/-- A `types.Object` found in a scope. Only `TypeName` carries data the code reads. -/
inductive Object where
  | typeName (typ : GoType)
  | const
  | var
  | func
  | pkgName
  | builtin
  | nilObj
  deriving DecidableEq, Repr

/-- A `*types.Scope`: the map from identifiers to the objects declared under them. -/
abbrev Scope := List (String × Object)

/-- Go `scope.Lookup(name)`: the object declared under `name`, or nil. -/
def Scope.Lookup (scope : Scope) (name : String) : Option Object :=
  List.lookup name scope

/-- The checked type assertion `obj.(*types.TypeName)` of `lookupType`. -/
def Object.asTypeName : Object → Option GoType
  | .typeName typ => some typ
  | _ => none

/-- The unchecked type assertion `typ.Type().(*types.Named)`: it yields the defined
type, and panics when the dynamic type is anything else. -/
def GoType.assertNamed : GoType → Run Named
  | .named n => .ret n
  | _ => .panic

/-- The checked type assertion `typ.Underlying().(*types.Struct)`, second result. -/
def Shape.isStruct : Shape → Bool
  | .struct _ => true
  | _ => false

/-- Go `lookupType` (main.go 137-147). -/
def lookupType (scope : Scope) (name : String) : Run (Except String Named) :=
  match scope.Lookup name with
  | none => .ret (.error "no such identifier")
  | some obj =>
    match obj.asTypeName with
    | none => .ret (.error "not a type")
    | some typ =>
      match typ.assertNamed with
      | .panic => .panic
      | .ret n => .ret (.ok n)

/-- Go `lookupStructType` (main.go 125-135). -/
def lookupStructType (scope : Scope) (name : String) : Run (Except String Named) :=
  match lookupType scope name with
  | .panic => .panic
  | .ret (.error err) => .ret (.error err)
  | .ret (.ok typ) =>
    if typ.underlying.isStruct then .ret (.ok typ)
    else .ret (.error "not a struct type")


/-! ## packages loaded for a run, and the collaborators of `Config.process` -/

/-- A `*types.Package`: the type-checked package with its package-level scope. -/
structure TypesPackage where
  name : String
  path : String
  scope : Scope
  deriving DecidableEq, Repr

/-- A `*packages.Package` as `packages.Load` returns it, with the fields `process` reads. -/
structure Package where
  PkgPath : String
  Errors : List String
  Types : Option TypesPackage
  deriving DecidableEq, Repr

/-- Go `Config` (main.go 64-70). The field `Type` is spelled `Type_`. -/
structure Config where
  Dir : String
  Type_ : String
  GenerateEncoder : Bool
  GenerateDecoder : Bool
  deriving DecidableEq, Repr

/-- The `error` values `Config.process` returns, by the statement that builds them. -/
inductive ProcError where
  /-- the error of `packages.Load`, returned as it is -/
  | load (msg : String)
  /-- Go `fmt.Errorf("no Go package found in %s", cfg.Dir)` -/
  | noPackage (dir : String)
  /-- Go `fmt.Errorf("package %s has errors", p.PkgPath)` -/
  | packageErrors (pkgPath : String)
  /-- Go `fmt.Errorf("can't find %s in %s: %v", cfg.Type, pkg, err)` -/
  | cantFind (typeName : String) (pkg : Option TypesPackage) (err : String)
  /-- the error of `bctx.generate`, returned as it is -/
  | generate (msg : String)
  deriving DecidableEq, Repr

/-- The two results `(code []byte, err error)` of `Config.process`; the nil slice is `""`. -/
structure ProcResult where
  code : String
  err : Option ProcError
  deriving DecidableEq, Repr

/-- What `Config.process` and `main` call outside main.go. `B` is the type of the
build context. `newBuildContext` and `generate` are functions of gen.go, which is
not among the sources: they are parameters, and may return or panic. `load dir` is
the result of `packages.Load(pcfg, pathOfPackageRLP, ".")` for `pcfg.Dir = dir`,
`Universe` is `types.Universe`, and `writeFile path data` is the error result of
`os.WriteFile(path, data, 0600)`. -/
structure Env (B : Type) where
  load : String → Except String (List Package)
  Universe : Scope
  newBuildContext : Option TypesPackage → Run B
  generate : B → Named → Bool → Bool → Run (String × Option String)
  writeFile : String → String → Option String

/-- Go `pathOfPackageRLP` (main.go 30). -/
def pathOfPackageRLP : String := "github.com/ponzinomics/go-ethereum/rlp"

/-- Go `pkg.Scope()` of go/types: the package scope, and the universe scope for a nil receiver. -/
def pkgScope (univ : Scope) : Option TypesPackage → Scope
  | some p => p.scope
  | none => univ

/-- The variables `pkg` and `packageRLP` of `process` (main.go 90-93). -/
structure Found where
  pkg : Option TypesPackage
  packageRLP : Option TypesPackage
  deriving DecidableEq, Repr

/-- The loop `for _, p := range ps` of `process` (main.go 94-103). -/
def findPackages : List Package → Found → Except ProcError Found
  | [], acc => .ok acc
  | p :: rest, acc =>
    if p.Errors.length > 0 then .error (.packageErrors p.PkgPath)
    else if p.PkgPath = pathOfPackageRLP then
      findPackages rest { acc with packageRLP := p.Types }
    else
      findPackages rest { acc with pkg := p.Types }

/-- The build comments `process` writes in front of the generated code (main.go 118-121). -/
def headerText : String :=
  "// Code generated by rlpgen. DO NOT EDIT.\n\n" ++
  "//go:build !norlpgen\n" ++
  "// +build !norlpgen\n\n"

/-- Go `Config.process` (main.go 72-123). `packages.PrintErrors`, which only prints to
standard error, is left out. -/
def Config.process {B : Type} (cfg : Config) (env : Env B) : Run ProcResult :=
  match env.load cfg.Dir with
  | .error e => .ret ⟨"", some (.load e)⟩
  | .ok ps =>
    if ps.length = 0 then .ret ⟨"", some (.noPackage cfg.Dir)⟩
    else
      match findPackages ps ⟨none, none⟩ with
      | .error e => .ret ⟨"", some e⟩
      | .ok found =>
        match env.newBuildContext found.packageRLP with
        | .panic => .panic
        | .ret bctx =>
          match lookupStructType (pkgScope env.Universe found.pkg) cfg.Type_ with
          | .panic => .panic
          | .ret (.error err) => .ret ⟨"", some (.cantFind cfg.Type_ found.pkg err)⟩
          | .ret (.ok typ) =>
            match env.generate bctx typ cfg.GenerateEncoder cfg.GenerateDecoder with
            | .panic => .panic
            | .ret (_, some err) => .ret ⟨"", some (.generate err)⟩
            | .ret (code, none) => .ret ⟨headerText ++ code, none⟩

/-- The parsed command-line flags of `main` (main.go 33-40). -/
structure Flags where
  pkgdir : String
  output : String
  genEncoder : Bool
  genDecoder : Bool
  typename : String
  deriving DecidableEq, Repr

/-- The flag defaults declared in `main`. -/
def Flags.default : Flags :=
  { pkgdir := ".", output := "-", genEncoder := true, genDecoder := false, typename := "" }

/-- The `Config` that `main` builds from the flags (main.go 42-47). -/
def Flags.toConfig (fl : Flags) : Config :=
  { Dir := fl.pkgdir, Type_ := fl.typename,
    GenerateEncoder := fl.genEncoder, GenerateDecoder := fl.genDecoder }

/-- What `fatal` prints: an error of `process`, or the error of `os.WriteFile`. -/
inductive Diagnostic where
  | proc (e : ProcError)
  | write (msg : String)
  deriving DecidableEq, Repr

/-- The observable actions of `main`, in the order they happen. -/
inductive Effect where
  /-- Go `os.Stdout.Write(code)` -/
  | stdoutWrite (data : String)
  /-- Go `os.WriteFile(path, data, 0600)` -/
  | fileWrite (path : String) (data : String)
  /-- Go `fmt.Fprintln(os.Stderr, ...)` in `fatal` -/
  | stderrPrint (d : Diagnostic)
  /-- Go `os.Exit(code)` in `fatal` -/
  | exit (code : Nat)
  deriving DecidableEq, Repr

/-- An action that writes to the output destination (standard output or the file). -/
def Effect.isOutput : Effect → Bool
  | .stdoutWrite _ => true
  | .fileWrite _ _ => true
  | _ => false

/-- The data an output action writes. -/
def Effect.written : Effect → Option String
  | .stdoutWrite d => some d
  | .fileWrite _ d => some d
  | _ => none

/-- Go `fatal` (main.go 59-62): print the arguments to standard error and exit with code 1. -/
def fatal (d : Diagnostic) : List Effect :=
  [.stderrPrint d, .exit 1]

/-- Go `main` after `flag.Parse()` (main.go 42-57), as the trace of its actions. -/
def main {B : Type} (env : Env B) (fl : Flags) : Run (List Effect) :=
  match fl.toConfig.process env with
  | .panic => .panic
  | .ret ⟨_, some err⟩ => .ret (fatal (.proc err))
  | .ret ⟨code, none⟩ =>
    if fl.output = "-" then .ret [.stdoutWrite code]
    else
      match env.writeFile fl.output code with
      | some e => .ret (.fileWrite fl.output code :: fatal (.write e))
      | none => .ret [.fileWrite fl.output code]

end Rlpgen

namespace Rlpgen

open Go

/-! ## A concrete run, used to evaluate the definitions -/

/-- The package scope of a small input package: a struct type, a defined integer
type, a constant, and an alias declaration of an unnamed struct type. -/
def demoScope : Scope :=
  [ ("Tx", .typeName (.named ⟨"Tx", .struct [("Nonce", "uint64"), ("Payload", "[]byte")]⟩)),
    ("Count", .typeName (.named ⟨"Count", .basic "uint64"⟩)),
    ("Limit", .const),
    ("Raw", .typeName (.unnamed (.struct [("X", "uint64")]))) ]

/-- The same alias declaration as newer go/types versions represent it. -/
def demoAliasScope : Scope :=
  [ ("Raw", .typeName (.aliasNode "Raw" (.struct [("X", "uint64")]))) ]

/-- The two packages a run loads: package rlp and the input package. -/
def demoPackages : List Package :=
  [ ⟨pathOfPackageRLP, [], some ⟨"rlp", pathOfPackageRLP, []⟩⟩,
    ⟨"example.com/demo", [], some ⟨"demo", "example.com/demo", demoScope⟩⟩ ]

/-- Modelled from the spec: the interface of the Code Emitter (`bctx.generate` of
gen.go, which is not among the sources). Per section 4.4 it takes the two flags and
returns source text holding an encoder routine when the first is set and a decoder
routine when the second is set; the routine bodies are not modelled. It partly
fails (text and an error together) for the type named `Broken`. -/
def demoGenerate (_ : Unit) (typ : Named) (encoder decoder : Bool) :
    Run (String × Option String) :=
  if typ.name = "Broken" then .ret ("package demo\n", some "unsupported type")
  else
    .ret ("package demo\n" ++
      (if encoder then "func (obj *" ++ typ.name ++ ") EncodeRLP(w io.Writer) error\n" else "") ++
      (if decoder then "func (obj *" ++ typ.name ++ ") DecodeRLP(dec *rlp.Stream) error\n" else ""),
      none)

/-- A run environment over `demoPackages`. -/
def demoEnv : Env Unit :=
  { load := fun _ => .ok demoPackages
    Universe := [("error", .typeName (.named ⟨"error", .interface ["Error"]⟩)),
                 ("uint64", .typeName (.unnamed (.basic "uint64"))),
                 ("nil", .nilObj)]
    newBuildContext := fun _ => .ret ()
    generate := demoGenerate
    writeFile := fun _ _ => none }

/-- A run environment whose input package declares the struct type `Broken`. -/
def brokenEnv : Env Unit :=
  { demoEnv with
    load := fun _ => .ok
      [ ⟨"example.com/demo", [], some ⟨"demo", "example.com/demo",
          [("Broken", .typeName (.named ⟨"Broken", .struct [("F", "float64")]⟩))]⟩⟩ ] }

end Rlpgen

namespace CoreTypes

open Go

/-! ## `big.Int` objects and `TransactionFast` (transaction_fast.go) -/

/-- The address of a `big.Int` object. A `*big.Int` is an `Option Addr`, nil being `none`. -/
abbrev Addr := Nat

/-- The `big.Int` objects allocated so far, by address. -/
structure BigHeap where
  cells : List Int
  deriving DecidableEq, Repr

/-- Go `new(big.Int)`: a fresh object holding zero. -/
def BigHeap.new (h : BigHeap) : BigHeap × Addr :=
  (⟨h.cells ++ [0]⟩, h.cells.length)

/-- The value behind a pointer; `none` for the nil pointer (a dereference of it panics). -/
def BigHeap.load (h : BigHeap) (p : Option Addr) : Option Int :=
  match p with
  | none => none
  | some a => h.cells[a]?

/-- Overwrite the object at address `a`. -/
def BigHeap.store (h : BigHeap) (a : Addr) (v : Int) : BigHeap :=
  ⟨h.cells.set a v⟩

/-- Go `z.Set(x)`: sets `z` to the value of `x` and returns `z`. -/
def bigSet (h : BigHeap) (z : Addr) (x : Option Addr) : Run (BigHeap × Addr) :=
  match h.load x with
  | none => .panic
  | some v => .ret (h.store z v, z)

/-- The values of the type `uint64`. -/
def uint64 (n : Nat) : Nat := n % 2 ^ 64

/-- Go `z.SetUint64(x)`: sets `z` to the `uint64` value `x` and returns `z`. -/
def bigSetUint64 (h : BigHeap) (z : Addr) (x : Nat) : BigHeap × Addr :=
  (h.store z (Int.ofNat (uint64 x)), z)

/-- Go `z.Mul(x, y)`: sets `z` to the product and returns `z`. -/
def bigMul (h : BigHeap) (z x y : Addr) : Run (BigHeap × Addr) :=
  match h.load (some x), h.load (some y) with
  | some vx, some vy => .ret (h.store z (vx * vy), z)
  | _, _ => .panic

/-- Go `z.Add(x, y)`: sets `z` to the sum and returns `z`. -/
def bigAdd (h : BigHeap) (z x y : Addr) : Run (BigHeap × Addr) :=
  match h.load (some x), h.load (some y) with
  | some vx, some vy => .ret (h.store z (vx + vy), z)
  | _, _ => .panic

/-- A `common.Hash`: the 32 bytes, read as one big-endian number. -/
abbrev Hash := Nat

/-- Go `TransactionFast` (transaction_fast.go 44-58). `time` is a time stamp, `data` a
byte sequence; the fields `from`, `to` and `Type` are spelled `from_`, `to_` and `Type_`. -/
structure TransactionFast where
  time : Nat
  nonce : Nat
  hash : Hash
  data : List Nat
  gas : Nat
  gasPrice : Option Addr
  value : Option Addr
  r : Option Addr
  from_ : String
  to_ : String
  Type_ : Nat
  BlockNumber : Nat
  chain : Nat
  deriving DecidableEq, Repr

/-- Go `Gas` (transaction_fast.go 146). -/
def TransactionFast.Gas (tx : TransactionFast) : Nat := tx.gas

/-- Go `GasPrice` (transaction_fast.go 149): a fresh copy of the gas price. -/
def TransactionFast.GasPrice (h : BigHeap) (tx : TransactionFast) : Run (BigHeap × Addr) :=
  let (h1, z) := h.new
  bigSet h1 z tx.gasPrice

/-- Go `Value` (transaction_fast.go 152): a fresh copy of the value. -/
def TransactionFast.Value (h : BigHeap) (tx : TransactionFast) : Run (BigHeap × Addr) :=
  let (h1, z) := h.new
  bigSet h1 z tx.value

/-- Go `Cost` (transaction_fast.go 182-186). -/
def TransactionFast.Cost (h : BigHeap) (tx : TransactionFast) : Run (BigHeap × Addr) :=
  let (h1, total) := h.new
  match tx.GasPrice h1 with
  | .panic => .panic
  | .ret (h2, gp) =>
    let (h3, z) := h2.new
    let (h4, g) := bigSetUint64 h3 z tx.Gas
    match bigMul h4 total gp g with
    | .panic => .panic
    | .ret (h5, total) =>
      match tx.Value h5 with
      | .panic => .panic
      | .ret (h6, v) => bigAdd h6 total total v

/-- A heap with two objects, and a transaction whose gas is the largest `uint64`. -/
def demoHeap : BigHeap := ⟨[3, 7]⟩

/-- A transaction over `demoHeap`: gas price 3, value 7, gas the largest `uint64`. -/
def demoTx : TransactionFast :=
  { time := 0, nonce := 1, hash := 17, data := [], gas := 2 ^ 64 - 1,
    gasPrice := some 0, value := some 1, r := none, from_ := "", to_ := "",
    Type_ := 0, BlockNumber := 0, chain := 0 }

end CoreTypes

namespace CoreTypes

open Go

/-! ## Slices of transaction pointers and `TxDifferenceFast` (transaction_fast.go) -/

/-- A `*TransactionFast`: nil, or the transaction pointed to. -/
abbrev TxPtr := Option TransactionFast

/-- A slice header of type `TransactionsFast`: the backing array, the offset of the
first element in it, the length and the capacity. -/
structure Slice where
  arr : Nat
  off : Nat
  len : Nat
  cap : Nat
  deriving DecidableEq, Repr

/-- The backing arrays allocated so far; slices that share an array alias each other. -/
structure SliceMem where
  arrays : List (List TxPtr)
  deriving DecidableEq, Repr

/-- The index expression `s[i]`; `none` when the index is out of range. -/
def SliceMem.index (m : SliceMem) (s : Slice) (i : Nat) : Option TxPtr :=
  if i < s.len then
    match m.arrays[s.arr]? with
    | none => none
    | some array => array[s.off + i]?
  else none

/-- The elements of a slice, in order. -/
def SliceMem.elems (m : SliceMem) (s : Slice) : List TxPtr :=
  (((m.arrays[s.arr]?).getD []).drop s.off).take s.len

/-- A slice header that lies inside an allocated array. -/
def SliceMem.valid (m : SliceMem) (s : Slice) : Bool :=
  match m.arrays[s.arr]? with
  | some array => decide (s.off + s.len ≤ array.length)
  | none => false

/-- Go `make(TransactionsFast, 0, cap)`: a fresh array of nil pointers, and an empty slice of it. -/
def SliceMem.make (m : SliceMem) (cap : Nat) : SliceMem × Slice :=
  (⟨m.arrays ++ [List.replicate cap none]⟩,
   { arr := m.arrays.length, off := 0, len := 0, cap := cap })

/-- Go `append(s, x)`: with spare capacity the element is written into the backing
array of `s`; otherwise the elements move to a fresh, larger array (the run time
picks its capacity; twice the old capacity plus one is taken here). -/
def SliceMem.append (m : SliceMem) (s : Slice) (x : TxPtr) : SliceMem × Slice :=
  if s.len < s.cap then
    (⟨m.arrays.set s.arr (((m.arrays[s.arr]?).getD []).set (s.off + s.len) x)⟩,
     { s with len := s.len + 1 })
  else
    (⟨m.arrays ++ [m.elems s ++ x :: List.replicate (s.cap + 1) none]⟩,
     { arr := m.arrays.length, off := 0, len := s.len + 1, cap := 2 * s.cap + 2 })

/-- The set `remove` of type `map[common.Hash]struct{}`, as the list of its keys. -/
abbrev HashSet := List Hash

/-- The map assignment `remove[h] = struct{}{}`. -/
def HashSet.insert (s : HashSet) (h : Hash) : HashSet :=
  if h ∈ s then s else h :: s

/-- The loop `for _, tx := range b { remove[tx.hash] = struct{}{} }`, from index `i`
on, with `fuel` iterations left. -/
def removeLoop (m : SliceMem) (b : Slice) : Nat → Nat → HashSet → Run HashSet
  | 0, _, remove => .ret remove
  | fuel + 1, i, remove =>
    match m.index b i with
    | none => .panic
    | some none => .panic
    | some (some tx) => removeLoop m b fuel (i + 1) (HashSet.insert remove tx.hash)

/-- The loop `for _, tx := range a { if _, ok := remove[tx.hash]; !ok { keep =
append(keep, tx) } }`, from index `i` on, with `fuel` iterations left. -/
def keepLoop (remove : HashSet) (a : Slice) :
    Nat → Nat → SliceMem → Slice → Run (SliceMem × Slice)
  | 0, _, m, keep => .ret (m, keep)
  | fuel + 1, i, m, keep =>
    match m.index a i with
    | none => .panic
    | some none => .panic
    | some (some tx) =>
      if tx.hash ∈ remove then keepLoop remove a fuel (i + 1) m keep
      else
        let (m2, keep2) := m.append keep (some tx)
        keepLoop remove a fuel (i + 1) m2 keep2

/-- Go `TxDifferenceFast` (transaction_fast.go 207-222). -/
def TxDifferenceFast (m : SliceMem) (a b : Slice) : Run (SliceMem × Slice) :=
  let (m1, keep) := m.make a.len
  match removeLoop m1 b b.len 0 [] with
  | .panic => .panic
  | .ret remove => keepLoop remove a a.len 0 m1 keep

/-- Whether a transaction pointer is nil. -/
def TxPtr.isNil : TxPtr → Bool
  | none => true
  | some _ => false

/-- The hash of the transaction behind a pointer. -/
def TxPtr.hash? : TxPtr → Option Hash
  | none => none
  | some tx => some tx.hash

/-- The difference by hash, as a specification: the elements of `as` whose
hash is the hash of no element of `bs`, in the order and multiplicity of `as`. -/
def differenceByHash (as bs : List TxPtr) : List TxPtr :=
  as.filter (fun x => decide (∀ y ∈ bs, TxPtr.hash? y ≠ TxPtr.hash? x))

/-- The memory while `keep` holds the elements `K`: the old arrays, and the array of `keep`. -/
def keepMem (M : List (List TxPtr)) (cap : Nat) (K : List TxPtr) : SliceMem :=
  ⟨M ++ [K ++ List.replicate (cap - K.length) none]⟩

/-- The slice header of `keep` while it holds the elements `K`. -/
def keepSlice (M : List (List TxPtr)) (cap : Nat) (K : List TxPtr) : Slice :=
  { arr := M.length, off := 0, len := K.length, cap := cap }

/-- A transaction with the given nonce and hash. -/
def txWith (nonce : Nat) (hash : Hash) : TransactionFast :=
  { time := 0, nonce := nonce, hash := hash, data := [], gas := 21000,
    gasPrice := none, value := none, r := none, from_ := "", to_ := "",
    Type_ := 0, BlockNumber := 0, chain := 0 }

/-- One array of five transactions; the hash 7 occurs twice. -/
def demoMem : SliceMem :=
  ⟨[[some (txWith 0 5), some (txWith 1 7), some (txWith 2 9), some (txWith 3 7),
     some (txWith 4 11)]]⟩

/-- The slice of all five transactions of `demoMem`. -/
def demoA : Slice := { arr := 0, off := 0, len := 5, cap := 5 }

/-- The slice of the third and fourth transaction of `demoMem`; it overlaps `demoA`. -/
def demoB : Slice := { arr := 0, off := 2, len := 2, cap := 3 }

end CoreTypes

namespace CoreTypes

open Go

/-! ## JSON input, `encoding/json` and `hexutil` as `UnmarshalJSON` uses them

`json.Unmarshal` and the `hexutil` types are library code; the definitions of this
section model their documented behaviour on the struct `txFastJSON`. -/

/-- A JSON value as `encoding/json` scans it. A string, and an object key, keeps the
text between its quotes as written, escapes included. -/
inductive JSON where
  | null
  | bool (b : Bool)
  | number (literal : String)
  | string (raw : String)
  | array (items : List JSON)
  | object (members : List (String × JSON))

/-- Whether a JSON value is the literal `null`. -/
def JSON.isNull : JSON → Bool
  | .null => true
  | _ => false

/-- Go `decodeNibble` of hexutil: the value of a hexadecimal digit. -/
def decodeNibble (c : Char) : Option Nat :=
  if '0' ≤ c ∧ c ≤ '9' then some (c.toNat - '0'.toNat)
  else if 'A' ≤ c ∧ c ≤ 'F' then some (c.toNat - 'A'.toNat + 10)
  else if 'a' ≤ c ∧ c ≤ 'f' then some (c.toNat - 'a'.toNat + 10)
  else none

/-- The number written by a sequence of hexadecimal digits, continuing from `acc`. -/
def decodeHex : List Char → Nat → Option Nat
  | [], acc => some acc
  | c :: rest, acc =>
    match decodeNibble c with
    | none => none
    | some d => decodeHex rest (acc * 16 + d)

/-- Go `getu4` of encoding/json: the four hexadecimal digits after a `\u`. -/
def getu4 : List Char → Option (Nat × List Char)
  | a :: b :: c :: d :: rest =>
    match decodeHex [a, b, c, d] 0 with
    | none => none
    | some r => some (r, rest)
  | _ => none

/-- Go `unquote` of encoding/json on the text between the quotes: escapes are replaced
by the characters they denote, a `\u` surrogate pair by its code point and a lone
surrogate by U+FFFD. The first argument bounds the number of steps. -/
def unquoteChars : Nat → List Char → List Char
  | 0, _ => []
  | _, [] => []
  | fuel + 1, '\\' :: 'u' :: rest =>
    match getu4 rest with
    | none => []
    | some (r1, rest1) =>
      if 0xD800 ≤ r1 ∧ r1 < 0xE000 then
        match rest1 with
        | '\\' :: 'u' :: rest2 =>
          match getu4 rest2 with
          | some (r2, rest3) =>
            if r1 < 0xDC00 ∧ 0xDC00 ≤ r2 ∧ r2 < 0xE000 then
              Char.ofNat ((r1 - 0xD800) * 0x400 + (r2 - 0xDC00) + 0x10000) ::
                unquoteChars fuel rest3
            else Char.ofNat 0xFFFD :: unquoteChars fuel rest1
          | none => Char.ofNat 0xFFFD :: unquoteChars fuel rest1
        | _ => Char.ofNat 0xFFFD :: unquoteChars fuel rest1
      else Char.ofNat r1 :: unquoteChars fuel rest1
  | fuel + 1, '\\' :: c :: rest =>
    (if c = 'b' then Char.ofNat 8
     else if c = 'f' then Char.ofNat 12
     else if c = 'n' then '\n'
     else if c = 'r' then '\r'
     else if c = 't' then '\t'
     else c) :: unquoteChars fuel rest
  | fuel + 1, c :: rest => c :: unquoteChars fuel rest

/-- The string a JSON string literal denotes. -/
def unquote (raw : String) : String :=
  String.mk (unquoteChars raw.length raw.data)

/-- Go `foldRune` of encoding/json, as far as it can produce an ASCII letter: a small
letter folds to its capital, U+017F to `S` and U+212A to `K`. -/
def foldRune (c : Char) : Char :=
  if 'a' ≤ c ∧ c ≤ 'z' then Char.ofNat (c.toNat - 32)
  else if c = Char.ofNat 0x17F then 'S'
  else if c = Char.ofNat 0x212A then 'K'
  else c

/-- Go `foldName` of encoding/json: the key used for the case-insensitive field match. -/
def foldName (s : String) : String :=
  String.mk (s.data.map foldRune)

/-- The fields of `txFastJSON` (transaction_fast_marshalling.go 30-51). -/
inductive Field where
  | type
  | nonce
  | gasPrice
  | maxPriorityFeePerGas
  | maxFeePerGas
  | gas
  | value
  | input
  | r
  | to
  | from
  | chainId
  | blockNumber
  | hash
  deriving DecidableEq, Repr

/-- The JSON name in the tag of each field of `txFastJSON`. -/
def Field.name : Field → String
  | .type => "type"
  | .nonce => "nonce"
  | .gasPrice => "gasPrice"
  | .maxPriorityFeePerGas => "maxPriorityFeePerGas"
  | .maxFeePerGas => "maxFeePerGas"
  | .gas => "gas"
  | .value => "value"
  | .input => "input"
  | .r => "r"
  | .to => "to"
  | .from => "from"
  | .chainId => "chainId"
  | .blockNumber => "blockNumber"
  | .hash => "hash"

/-- The fields of `txFastJSON` in declaration order. -/
def Field.all : List Field :=
  [.type, .nonce, .gasPrice, .maxPriorityFeePerGas, .maxFeePerGas, .gas, .value, .input,
   .r, .to, .from, .chainId, .blockNumber, .hash]

/-- The struct field an object key selects: the key is unquoted and matched against
the field names without regard to case. -/
def findField (key : String) : Option Field :=
  Field.all.find? (fun f => foldName (unquote key) = foldName f.name)

/-- Go `txFastJSON` (transaction_fast_marshalling.go 30-51). A pointer to a number, a
string or a byte slice is an `Option`; a `*hexutil.Big` is a pointer into the heap of
`big.Int` objects. -/
structure txFastJSON where
  Type_ : Nat
  Nonce : Option Nat
  GasPrice : Option Addr
  MaxPriorityFeePerGas : Option Addr
  MaxFeePerGas : Option Addr
  Gas : Option Nat
  Value : Option Addr
  Data : Option (List Nat)
  R : Option Addr
  To : Option String
  From : Option String
  ChainID : Option Nat
  BlockNumber : Option Nat
  Hash : Hash
  deriving DecidableEq, Repr

/-- The zero value of `txFastJSON`, which `var dec txFastJSON` declares. -/
def txFastJSON.zero : txFastJSON :=
  { Type_ := 0, Nonce := none, GasPrice := none, MaxPriorityFeePerGas := none,
    MaxFeePerGas := none, Gas := none, Value := none, Data := none, R := none,
    To := none, From := none, ChainID := none, BlockNumber := none, Hash := 0 }

/-- Go `checkNumberText` of hexutil: the digits of a `0x` quantity; the empty text is
allowed, a missing `0x`, no digit and a leading zero are errors. -/
def checkNumberText : List Char → Option (List Char)
  | [] => some []
  | '0' :: x :: digits =>
    if x = 'x' ∨ x = 'X' then
      match digits with
      | [] => none
      | d :: more => if more ≠ [] ∧ d = '0' then none else some (d :: more)
    else none
  | _ => none

/-- Go `hexutil.Uint64.UnmarshalText`: at most 16 digits. -/
def decodeUint64 (text : String) : Option Nat :=
  match checkNumberText text.data with
  | none => none
  | some digits => if digits.length > 16 then none else decodeHex digits 0

/-- Go `hexutil.Big.UnmarshalText`: at most 64 digits. -/
def decodeBig (text : String) : Option Int :=
  match checkNumberText text.data with
  | none => none
  | some digits =>
    if digits.length > 64 then none
    else
      match decodeHex digits 0 with
      | none => none
      | some n => some (Int.ofNat n)

/-- Go `checkText` of hexutil with `wantPrefix`: the digits after `0x`; the empty text is
allowed, a missing `0x` and an odd number of digits are errors. -/
def checkText : List Char → Option (List Char)
  | [] => some []
  | '0' :: x :: digits =>
    if x = 'x' ∨ x = 'X' then (if digits.length % 2 ≠ 0 then none else some digits)
    else none
  | _ => none

/-- Go `hex.Decode`: the bytes written by pairs of hexadecimal digits. -/
def decodeHexBytes : List Char → Option (List Nat)
  | [] => some []
  | [_] => none
  | hi :: lo :: rest =>
    match decodeNibble hi, decodeNibble lo, decodeHexBytes rest with
    | some a, some b, some bs => some ((a * 16 + b) :: bs)
    | _, _, _ => none

/-- Go `hexutil.Bytes.UnmarshalText`. -/
def decodeBytes (text : String) : Option (List Nat) :=
  match checkText text.data with
  | none => none
  | some digits => decodeHexBytes digits

/-- Go `hexutil.UnmarshalFixedText` for `common.Hash`: exactly 32 bytes. -/
def decodeHash (text : String) : Option Hash :=
  match checkText text.data with
  | none => none
  | some digits => if digits.length / 2 ≠ 32 then none else decodeHex digits 0

/-- The state of a `json.Unmarshal` call: the heap of `big.Int` objects and `dec`. -/
structure DecState where
  heap : BigHeap
  dec : txFastJSON
  deriving DecidableEq, Repr

/-- Decoding a number into a field of type `hexutil.Uint64` (no pointer): every
value that is not a JSON string, `null` included, is an error of `UnmarshalJSON`. -/
def decodeUint64Value : JSON → Option Nat
  | .string raw => decodeUint64 raw
  | _ => none

/-- Decoding into a field of type `*hexutil.Uint64`: `null` sets the nil pointer. -/
def decodeUint64Ptr : JSON → Option (Option Nat)
  | .null => some none
  | .string raw =>
    match decodeUint64 raw with
    | none => none
    | some n => some (some n)
  | _ => none

/-- Decoding into a field of type `*hexutil.Big`: `null` sets the nil pointer, a
number is stored in the object pointed to, which is allocated when the pointer is nil. -/
def decodeBigPtr (h : BigHeap) (cur : Option Addr) : JSON → Option (BigHeap × Option Addr)
  | .null => some (h, none)
  | .string raw =>
    match decodeBig raw with
    | none => none
    | some v =>
      match cur with
      | some a => some (h.store a v, some a)
      | none => some ((h.new.1).store h.new.2 v, some h.new.2)
  | _ => none

/-- Decoding into a field of type `*hexutil.Bytes`. -/
def decodeBytesPtr : JSON → Option (Option (List Nat))
  | .null => some none
  | .string raw =>
    match decodeBytes raw with
    | none => none
    | some bs => some (some bs)
  | _ => none

/-- Decoding into a field of type `*string`. -/
def decodeStringPtr : JSON → Option (Option String)
  | .null => some none
  | .string raw => some (some (unquote raw))
  | _ => none

/-- Decoding into the field `Hash` of type `common.Hash` (no pointer). -/
def decodeHashValue : JSON → Option Hash
  | .string raw => decodeHash raw
  | _ => none

/-- Decoding one member value into the struct field it selects; `none` is an error. -/
def decodeField (st : DecState) (f : Field) (v : JSON) : Option DecState :=
  match f with
  | .type => (decodeUint64Value v).map fun n => { st with dec := { st.dec with Type_ := n } }
  | .nonce => (decodeUint64Ptr v).map fun p => { st with dec := { st.dec with Nonce := p } }
  | .gasPrice => (decodeBigPtr st.heap st.dec.GasPrice v).map fun r =>
      { heap := r.1, dec := { st.dec with GasPrice := r.2 } }
  | .maxPriorityFeePerGas => (decodeBigPtr st.heap st.dec.MaxPriorityFeePerGas v).map fun r =>
      { heap := r.1, dec := { st.dec with MaxPriorityFeePerGas := r.2 } }
  | .maxFeePerGas => (decodeBigPtr st.heap st.dec.MaxFeePerGas v).map fun r =>
      { heap := r.1, dec := { st.dec with MaxFeePerGas := r.2 } }
  | .gas => (decodeUint64Ptr v).map fun p => { st with dec := { st.dec with Gas := p } }
  | .value => (decodeBigPtr st.heap st.dec.Value v).map fun r =>
      { heap := r.1, dec := { st.dec with Value := r.2 } }
  | .input => (decodeBytesPtr v).map fun p => { st with dec := { st.dec with Data := p } }
  | .r => (decodeBigPtr st.heap st.dec.R v).map fun r =>
      { heap := r.1, dec := { st.dec with R := r.2 } }
  | .to => (decodeStringPtr v).map fun p => { st with dec := { st.dec with To := p } }
  | .from => (decodeStringPtr v).map fun p => { st with dec := { st.dec with From := p } }
  | .chainId => (decodeUint64Ptr v).map fun p => { st with dec := { st.dec with ChainID := p } }
  | .blockNumber =>
      (decodeUint64Ptr v).map fun p => { st with dec := { st.dec with BlockNumber := p } }
  | .hash => (decodeHashValue v).map fun x => { st with dec := { st.dec with Hash := x } }

/-- Decoding the members of an object in order; a key that selects no field is skipped. -/
def decodeMembers : List (String × JSON) → DecState → Option DecState
  | [], st => some st
  | (key, v) :: rest, st =>
    match findField key with
    | none => decodeMembers rest st
    | some f =>
      match decodeField st f v with
      | none => none
      | some st1 => decodeMembers rest st1

/-- Go `json.Unmarshal(input, &dec)` for a fresh `dec`: an object is decoded member by
member, `null` leaves `dec` untouched, every other value is an error. -/
def jsonUnmarshal (h : BigHeap) : JSON → Option DecState
  | .object members => decodeMembers members ⟨h, txFastJSON.zero⟩
  | .null => some ⟨h, txFastJSON.zero⟩
  | _ => none

/-! ## `UnmarshalJSON` (transaction_fast_marshalling.go) -/

/-- Modelled from the spec: the constant `LegacyTxType` is declared in a file that is
not among the sources; the commented copy in transaction_fast.go gives it the value
`iota`, zero. -/
def LegacyTxType : Nat := 0

/-- The `error` values `UnmarshalJSON` returns. `ErrTxTypeNotSupported` is the
package variable of that name. -/
inductive UnmarshalError where
  /-- the error of `json.Unmarshal`, returned as it is -/
  | json
  /-- Go `errors.New("missing required field '...' in transaction")` -/
  | missingRequiredField (name : String)
  | ErrTxTypeNotSupported
  deriving DecidableEq, Repr

/-- The state after `UnmarshalJSON`: the heap, the receiver `t` and the error result. -/
structure UnmarshalResult where
  heap : BigHeap
  t : TransactionFast
  err : Option UnmarshalError
  deriving DecidableEq, Repr

/-- Go `UnmarshalJSON` (transaction_fast_marshalling.go 59-225). `now` is the result of
`time.Now()`. When `json.Unmarshal` fails the objects it allocated are unreachable,
and the heap is returned as it was. -/
def TransactionFast.UnmarshalJSON (now : Nat) (h : BigHeap) (t : TransactionFast)
    (input : JSON) : UnmarshalResult :=
  match jsonUnmarshal h input with
  | none => ⟨h, t, some .json⟩
  | some ⟨h1, dec⟩ =>
    if dec.Type_ = LegacyTxType then
      let t1 := { t with to_ := "" }
      let t2 := match dec.To with
        | some s => { t1 with to_ := s }
        | none => t1
      match dec.Nonce with
      | none => ⟨h1, t2, some (.missingRequiredField "nonce")⟩
      | some nonce =>
        let t3 := { t2 with nonce := uint64 nonce }
        match dec.GasPrice with
        | none => ⟨h1, t3, some (.missingRequiredField "gasPrice")⟩
        | some gasPrice =>
          let t4 := { t3 with gasPrice := some gasPrice }
          match dec.Gas with
          | none => ⟨h1, t4, some (.missingRequiredField "gas")⟩
          | some gas =>
            let t5 := { t4 with gas := uint64 gas }
            match dec.Value with
            | none => ⟨h1, t5, some (.missingRequiredField "value")⟩
            | some value =>
              let t6 := { t5 with value := some value }
              match dec.Data with
              | none => ⟨h1, t6, some (.missingRequiredField "input")⟩
              | some data =>
                let t7 := { t6 with data := data }
                match dec.R with
                | none => ⟨h1, t7, some (.missingRequiredField "r")⟩
                | some r =>
                  let t8 := { t7 with r := some r }
                  let t9 := { t8 with from_ := "" }
                  let t10 := match dec.From with
                    | some s => { t9 with from_ := s }
                    | none => t9
                  let t11 := { t10 with BlockNumber := 0 }
                  let t12 := match dec.BlockNumber with
                    | some n => { t11 with BlockNumber := uint64 n }
                    | none => t11
                  ⟨h1, { t12 with time := now }, none⟩
    else ⟨h1, t, some .ErrTxTypeNotSupported⟩

end CoreTypes

namespace CoreTypes

open Go

/-! ## Specification side of `UnmarshalJSON`: which fields a JSON object holds -/

/-- The value of the last member of an object that selects the field `f`; a later
member with the same field replaces an earlier one. -/
def lastMember : List (String × JSON) → Field → Option JSON
  | [], _ => none
  | (key, v) :: rest, f =>
    match lastMember rest f with
    | some w => some w
    | none => if findField key = some f then some v else none

/-- A field is present in an object when a member selects it and its value is not `null`. -/
def present (members : List (String × JSON)) (f : Field) : Bool :=
  match lastMember members f with
  | some v => !v.isNull
  | none => false

/-- The six required fields, in the order in which the code checks them. -/
def requiredFields : List Field := [.nonce, .gasPrice, .gas, .value, .input, .r]

/-- The first required field that is not present. -/
def firstMissing (members : List (String × JSON)) : Option Field :=
  requiredFields.find? (fun f => !present members f)

/-- The number a value of the member `type` denotes. -/
def typeValue : JSON → Nat
  | .string raw => (decodeUint64 raw).getD 0
  | _ => 0

/-- The transaction type an object declares: the number of its `type` member, and
zero when there is none. -/
def declaredType (members : List (String × JSON)) : Nat :=
  match lastMember members .type with
  | some v => typeValue v
  | none => 0

/-- Whether a field of `dec` has been set: a pointer field is set when it is not nil,
the two fields without a pointer always hold a value. -/
def txFastJSON.isSet (d : txFastJSON) : Field → Bool
  | .type => true
  | .nonce => d.Nonce.isSome
  | .gasPrice => d.GasPrice.isSome
  | .maxPriorityFeePerGas => d.MaxPriorityFeePerGas.isSome
  | .maxFeePerGas => d.MaxFeePerGas.isSome
  | .gas => d.Gas.isSome
  | .value => d.Value.isSome
  | .input => d.Data.isSome
  | .r => d.R.isSome
  | .to => d.To.isSome
  | .from => d.From.isSome
  | .chainId => d.ChainID.isSome
  | .blockNumber => d.BlockNumber.isSome
  | .hash => true

/-- A legacy transaction with all six required fields, whose gas is a JSON number. -/
def demoNumberGasInput : List (String × JSON) :=
  [ ("nonce", .string "0x1"), ("gasPrice", .string "0x3b9aca00"), ("gas", .number "21000"),
    ("value", .string "0x0"), ("input", .string "0x"), ("r", .string "0x1") ]

/-- A legacy transaction with all six required fields and no optional one. -/
def demoLegacyInput : List (String × JSON) :=
  [ ("nonce", .string "0x1"), ("gasPrice", .string "0x3b9aca00"), ("gas", .string "0x5208"),
    ("value", .string "0x0"), ("input", .string "0x"), ("r", .string "0x1") ]

/-- A legacy transaction without the field `gas`. -/
def demoMissingGasInput : List (String × JSON) :=
  [ ("type", .string "0x0"), ("nonce", .string "0x1"), ("gasPrice", .string "0x3b9aca00"),
    ("value", .string "0x0"), ("input", .string "0x"), ("r", .string "0x1") ]

/-- A transaction of type 2. -/
def demoTypedInput : List (String × JSON) :=
  [ ("type", .string "0x2"), ("nonce", .string "0x1") ]

end CoreTypes

namespace RlpModel

/-! ## The wire format of the generated routines, modelled from the spec

The generator itself (gen.go) and the run-time library of package rlp are not among
the sources. Section 9 of the spec allows the IR to be interpreted directly in place
of emitting text; the definitions below are that interpreter, written from sections
3, 4.3 and 4.4. Bytes are numbers below 256. -/

mutual
/-- Modelled from the spec: the IR Node of section 3 (gen.go is not among the
sources). `RawValue`, which delegates to a contract outside the generator, and
`Pointer`, whose decoding section 9 leaves open, are not modelled. -/
inductive IR where
  | uint (bitWidth : Nat)
  | bigInt
  | byteSlice
  | byteArray (length : Nat)
  | list (elementOp : IR)
  | struct (fields : Fields)
/-- Modelled from the spec: the ordered fields `(name, IR Node, optional)` of a
`Struct` node (section 3). -/
inductive Fields where
  | nil
  | cons (name : String) (op : IR) (optional : Bool) (rest : Fields)
end

/-- Modelled from the spec: the values the routines encode and decode: numbers, byte
strings, sequences, and records given by their field values in declaration order. -/
inductive Value where
  | uint (n : Nat)
  | bigInt (z : Int)
  | bytes (bs : List Nat)
  | list (items : List Value)
  | record (fields : List Value)

/-- Modelled from the spec: the failures of an emitted routine (section 7). An encoder
fails on a negative big integer and on a value that does not have the shape of its
IR node; every decoder failure is a `DecodeFormatError`. -/
inductive Failure where
  | negativeBigInt
  | shapeMismatch
  | DecodeFormatError
  deriving DecidableEq, Repr

/-- Modelled from the spec: the big-endian digits of `n` in base 256 in front of `acc`, in
at most `fuel` steps. -/
def bigEndianAux : Nat → Nat → List Nat → List Nat
  | 0, _, acc => acc
  | fuel + 1, n, acc =>
    if n = 0 then acc else bigEndianAux fuel (n / 256) (n % 256 :: acc)

/-- Modelled from the spec: the minimal big-endian form of a number (section 3): no
leading zero byte, and no byte at all for zero. -/
def toBigEndian (n : Nat) : List Nat := bigEndianAux n n []

/-- Modelled from the spec: the number a big-endian byte sequence denotes. -/
def fromBigEndian (bs : List Nat) : Nat := bs.foldl (fun acc b => acc * 256 + b) 0

/-- Modelled from the spec: the header of the length-prefix rule (section 4.4): for a
payload of at most 55 bytes the single byte `base + length`, for a longer one the
byte `base + 55 + (number of length bytes)` and the minimal big-endian length. The
base is `0x80` for a byte string and `0xc0` for a list. -/
def header (base : Nat) (length : Nat) : List Nat :=
  if length ≤ 55 then [base + length]
  else (base + 55 + (toBigEndian length).length) :: toBigEndian length

/-- Modelled from the spec: the number of bytes of a header. -/
def headerSize (length : Nat) : Nat :=
  if length ≤ 55 then 1 else 1 + (toBigEndian length).length

/-- Modelled from the spec: a byte string that is a single byte below `0x80` is
encoded as that byte alone, every other one as its header and its bytes (section 4.4). -/
def writeString (bs : List Nat) : List Nat :=
  match bs with
  | [b] => if b < 0x80 then [b] else header 0x80 1 ++ [b]
  | _ => header 0x80 bs.length ++ bs

/-- Modelled from the spec: the size expression of a byte string. -/
def stringSize (bs : List Nat) : Nat :=
  match bs with
  | [b] => if b < 0x80 then 1 else 2
  | _ => headerSize bs.length + bs.length

/-- Modelled from the spec: the sum of the size expressions of the elements of a sequence. -/
def sumSizes (size : Value → Nat) : List Value → Nat
  | [] => 0
  | v :: rest => size v + sumSizes size rest

mutual
/-- Modelled from the spec: the size expression of section 4.3, the number of bytes
a value contributes, found without writing it. -/
def size : IR → Value → Nat
  | .uint _, .uint n => stringSize (toBigEndian n)
  | .bigInt, .bigInt z => stringSize (toBigEndian z.toNat)
  | .byteSlice, .bytes bs => stringSize bs
  | .byteArray _, .bytes bs => stringSize bs
  | .list elementOp, .list items =>
    headerSize (sumSizes (size elementOp) items) + sumSizes (size elementOp) items
  | .struct fields, .record vs => headerSize (fieldsSize fields vs) + fieldsSize fields vs
  | _, _ => 0
/-- Modelled from the spec: the sum of the size expressions of the fields of a record
(section 4.3). -/
def fieldsSize : Fields → List Value → Nat
  | .cons _ op _ rest, v :: vs => size op v + fieldsSize rest vs
  | _, _ => 0
end

/-- Modelled from the spec: the write procedures of the elements of a sequence, one after
the other. -/
def writeMany (write : Value → Except Failure (List Nat)) :
    List Value → Except Failure (List Nat)
  | [] => .ok []
  | v :: rest =>
    match write v, writeMany write rest with
    | .ok a, .ok b => .ok (a ++ b)
    | .error e, _ => .error e
    | _, .error e => .error e

mutual
/-- Modelled from the spec: the write procedure of section 4.3 and the encoder
routine of section 4.4. A list and a record first compute the payload size by the
size expressions, write the list header for it, and then write their parts in order. -/
def write : IR → Value → Except Failure (List Nat)
  | .uint bitWidth, .uint n =>
    if n < 2 ^ bitWidth then .ok (writeString (toBigEndian n)) else .error .shapeMismatch
  | .bigInt, .bigInt z =>
    if z < 0 then .error .negativeBigInt else .ok (writeString (toBigEndian z.toNat))
  | .byteSlice, .bytes bs =>
    if bs.all (fun b => b < 256) then .ok (writeString bs) else .error .shapeMismatch
  | .byteArray length, .bytes bs =>
    if bs.all (fun b => b < 256) ∧ bs.length = length then .ok (writeString bs)
    else .error .shapeMismatch
  | .list elementOp, .list items =>
    match writeMany (write elementOp) items with
    | .error e => .error e
    | .ok body => .ok (header 0xc0 (sumSizes (size elementOp) items) ++ body)
  | .struct fields, .record vs =>
    match writeFields fields vs with
    | .error e => .error e
    | .ok body => .ok (header 0xc0 (fieldsSize fields vs) ++ body)
  | _, _ => .error .shapeMismatch
/-- Modelled from the spec: the write procedures of the fields of a record, in declaration order. -/
def writeFields : Fields → List Value → Except Failure (List Nat)
  | .nil, [] => .ok []
  | .cons _ op _ rest, v :: vs =>
    match write op v, writeFields rest vs with
    | .ok a, .ok b => .ok (a ++ b)
    | .error e, _ => .error e
    | _, .error e => .error e
  | _, _ => .error .shapeMismatch
end

/-- Modelled from the spec: the two kinds of item a header announces. -/
inductive ItemKind where
  | string
  | list
  deriving DecidableEq, Repr

/-- Modelled from the spec: an item read from the input: its kind, its payload, and the
input after it. -/
structure Item where
  kind : ItemKind
  payload : List Nat
  rest : List Nat
  deriving DecidableEq, Repr

/-- Modelled from the spec: the payload of `length` bytes at the front of the input, when
the input has it. -/
def takePayload (kind : ItemKind) (length : Nat) (input : List Nat) :
    Except Failure Item :=
  if input.length < length then .error .DecodeFormatError
  else .ok ⟨kind, input.take length, input.drop length⟩

/-- Modelled from the spec: the long form: `count` length bytes, minimal and denoting more
than 55, then the payload. -/
def takeLong (kind : ItemKind) (count : Nat) (input : List Nat) : Except Failure Item :=
  if input.length < count then .error .DecodeFormatError
  else if (input.take count).head? = some 0 then .error .DecodeFormatError
  else if fromBigEndian (input.take count) ≤ 55 then .error .DecodeFormatError
  else takePayload kind (fromBigEndian (input.take count)) (input.drop count)

/-- Modelled from the spec: reading one header by the length-prefix rule of section
4.4 and consuming exactly the declared length. An encoding that the rule does not
produce (a single byte below `0x80` behind a header, a long form for a short
payload, length bytes with a leading zero) is a `DecodeFormatError`. -/
def readItem : List Nat → Except Failure Item
  | [] => .error .DecodeFormatError
  | b :: rest =>
    if b < 0x80 then .ok ⟨.string, [b], rest⟩
    else if b ≤ 0xb7 then
      match takePayload .string (b - 0x80) rest with
      | .error e => .error e
      | .ok item =>
        match item.payload with
        | [c] => if c < 0x80 then .error .DecodeFormatError else .ok item
        | _ => .ok item
    else if b ≤ 0xbf then takeLong .string (b - 0xb7) rest
    else if b ≤ 0xf7 then takePayload .list (b - 0xc0) rest
    else if b ≤ 0xff then takeLong .list (b - 0xf7) rest
    else .error .DecodeFormatError

/-- Modelled from the spec: reading the payload of a byte string item. -/
def readString (input : List Nat) : Except Failure (List Nat × List Nat) :=
  match readItem input with
  | .error e => .error e
  | .ok item =>
    if item.kind = .string then .ok (item.payload, item.rest) else .error .DecodeFormatError

/-- Modelled from the spec: reading the payload of a list item. -/
def readList (input : List Nat) : Except Failure (List Nat × List Nat) :=
  match readItem input with
  | .error e => .error e
  | .ok item =>
    if item.kind = .list then .ok (item.payload, item.rest) else .error .DecodeFormatError

/-- Modelled from the spec: reading a number: a byte string in minimal big-endian form. -/
def readNumber (input : List Nat) : Except Failure (Nat × List Nat) :=
  match readString input with
  | .error e => .error e
  | .ok (payload, rest) =>
    if payload.head? = some 0 then .error .DecodeFormatError
    else .ok (fromBigEndian payload, rest)

/-- Modelled from the spec: the elements of a sequence, read one after the other until the
payload is used up, in at most `fuel` steps. -/
def readMany (read : List Nat → Except Failure (Value × List Nat)) :
    Nat → List Nat → Except Failure (List Value)
  | 0, payload => if payload = [] then .ok [] else .error .DecodeFormatError
  | fuel + 1, payload =>
    if payload = [] then .ok []
    else
      match read payload with
      | .error e => .error e
      | .ok (v, rest) =>
        match readMany read fuel rest with
        | .error e => .error e
        | .ok vs => .ok (v :: vs)

mutual
/-- Modelled from the spec: the read procedure of section 4.3 and the decoder routine
of section 4.4: the header must have the expected kind, exactly the declared length
is consumed, and bytes left over inside a record are a `DecodeFormatError`. The
result is the value and the input after it. -/
def read : IR → List Nat → Except Failure (Value × List Nat)
  | .uint bitWidth, input =>
    match readNumber input with
    | .error e => .error e
    | .ok (n, rest) => if n < 2 ^ bitWidth then .ok (.uint n, rest) else .error .DecodeFormatError
  | .bigInt, input =>
    match readNumber input with
    | .error e => .error e
    | .ok (n, rest) => .ok (.bigInt (Int.ofNat n), rest)
  | .byteSlice, input =>
    match readString input with
    | .error e => .error e
    | .ok (payload, rest) => .ok (.bytes payload, rest)
  | .byteArray length, input =>
    match readString input with
    | .error e => .error e
    | .ok (payload, rest) =>
      if payload.length = length then .ok (.bytes payload, rest) else .error .DecodeFormatError
  | .list elementOp, input =>
    match readList input with
    | .error e => .error e
    | .ok (payload, rest) =>
      match readMany (read elementOp) payload.length payload with
      | .error e => .error e
      | .ok items => .ok (.list items, rest)
  | .struct fields, input =>
    match readList input with
    | .error e => .error e
    | .ok (payload, rest) =>
      match readFields fields payload with
      | .error e => .error e
      | .ok (vs, left) => if left = [] then .ok (.record vs, rest) else .error .DecodeFormatError
/-- Modelled from the spec: the read procedures of the fields of a record, in declaration order. -/
def readFields : Fields → List Nat → Except Failure (List Value × List Nat)
  | .nil, payload => .ok ([], payload)
  | .cons _ op _ rest, payload =>
    match read op payload with
    | .error e => .error e
    | .ok (v, after) =>
      match readFields rest after with
      | .error e => .error e
      | .ok (vs, left) => .ok (v :: vs, left)
end

/-- Modelled from the spec: the record type of the end-to-end scenario: `nonce` of type
uint64 and `payload`, a byte string. -/
def demoRecord : IR :=
  .struct (.cons "nonce" (.uint 64) false (.cons "payload" .byteSlice false .nil))

/-- Modelled from the spec: the record value of the end-to-end scenario: nonce 9 and payload
"ab". -/
def demoRecordValue : Value :=
  .record [.uint 9, .bytes [0x61, 0x62]]

end RlpModel

/-! # Theorems -/

namespace Rlpgen

open Go

/-! ## Type lookup -/

/-- The result of `lookupType` on a name bound to a type name object that carries a defined type. -/
lemma lookupType_named (scope : Scope) (name : String) (n : Named)
    (h : scope.Lookup name = some (.typeName (.named n))) :
    lookupType scope name = .ret (.ok n) := by
  simp [lookupType, h, Object.asTypeName, GoType.assertNamed]

/-- C1: `lookupStructType` fails with "no such identifier" for a name absent from the
scope, fails with "not a struct type" for a name bound to a defined type whose
underlying type is not a struct, and returns exactly the defined type when its
underlying type is a struct. -/
theorem lookupStructType_contract (scope : Scope) (name : String) :
    (scope.Lookup name = none →
      lookupStructType scope name = .ret (.error "no such identifier")) ∧
    (∀ n : Named, scope.Lookup name = some (.typeName (.named n)) →
      n.underlying.isStruct = false →
      lookupStructType scope name = .ret (.error "not a struct type")) ∧
    (∀ n : Named, scope.Lookup name = some (.typeName (.named n)) →
      n.underlying.isStruct = true →
      lookupStructType scope name = .ret (.ok n)) := by
  refine ⟨?_, ?_, ?_⟩
  · intro h
    simp [lookupStructType, lookupType, h]
  · intro n h hs
    simp [lookupStructType, lookupType_named scope name n h, hs]
  · intro n h hs
    simp [lookupStructType, lookupType_named scope name n h, hs]

/-- C1 at `demoScope`: an absent name, a defined integer type and a defined struct type. -/
theorem lookupStructType_contract_witness :
    lookupStructType demoScope "Nope" = .ret (.error "no such identifier") ∧
    lookupStructType demoScope "Count" = .ret (.error "not a struct type") ∧
    lookupStructType demoScope "Tx" =
      .ret (.ok ⟨"Tx", .struct [("Nonce", "uint64"), ("Payload", "[]byte")]⟩) :=
  ⟨(lookupStructType_contract demoScope "Nope").1 rfl,
   (lookupStructType_contract demoScope "Count").2.1 ⟨"Count", .basic "uint64"⟩ rfl rfl,
   (lookupStructType_contract demoScope "Tx").2.2
     ⟨"Tx", .struct [("Nonce", "uint64"), ("Payload", "[]byte")]⟩ rfl rfl⟩

/-- C2: for the alias declaration `type Raw = struct { X uint64 }` the name `Raw` is
bound to a type name whose type is not a defined type, and both `lookupType` and
`lookupStructType` panic in the unchecked conversion instead of returning a type or
an error; this holds for either representation of the alias. -/
theorem lookupType_alias_of_unnamed_struct_panics :
    demoScope.Lookup "Raw" = some (.typeName (.unnamed (.struct [("X", "uint64")]))) ∧
    lookupType demoScope "Raw" = .panic ∧
    lookupStructType demoScope "Raw" = .panic ∧
    lookupType demoAliasScope "Raw" = .panic ∧
    lookupStructType demoAliasScope "Raw" = .panic :=
  ⟨rfl, rfl, rfl, rfl, rfl⟩

/-! ## `Config.process` and `main` -/

/-- Every way `Config.process` can return: an error with nil code, or the header
followed by the text of a successful `generate` call on the looked-up type. -/
lemma process_ret_cases {B : Type} (cfg : Config) (env : Env B) (r : ProcResult)
    (h : cfg.process env = .ret r) :
    (∃ e, r = ⟨"", some e⟩) ∨
    (∃ ps found bctx typ code,
      env.load cfg.Dir = .ok ps ∧ findPackages ps ⟨none, none⟩ = .ok found ∧
      env.newBuildContext found.packageRLP = .ret bctx ∧
      lookupStructType (pkgScope env.Universe found.pkg) cfg.Type_ = .ret (.ok typ) ∧
      env.generate bctx typ cfg.GenerateEncoder cfg.GenerateDecoder = .ret (code, none) ∧
      r = ⟨headerText ++ code, none⟩) := by
  unfold Config.process at h
  split at h
  · left; exact ⟨_, (Run.ret.inj h).symm⟩
  · rename_i ps hload
    split at h
    · left; exact ⟨_, (Run.ret.inj h).symm⟩
    · split at h
      · left; exact ⟨_, (Run.ret.inj h).symm⟩
      · rename_i found hfound
        split at h
        · cases h
        · rename_i bctx hb
          split at h
          · cases h
          · left; exact ⟨_, (Run.ret.inj h).symm⟩
          · rename_i typ hl
            split at h
            · cases h
            · left; exact ⟨_, (Run.ret.inj h).symm⟩
            · rename_i code hg
              right
              exact ⟨ps, found, bctx, typ, code, hload, hfound, hb, hl, hg,
                (Run.ret.inj h).symm⟩

/-- C3: whenever `Config.process` returns a non-nil error the returned code is nil,
and every output action in the trace of `main` (a write to standard output or to
the output file) writes the code of a `process` call that returned no error. -/
theorem process_error_emits_nothing {B : Type} (env : Env B) (fl : Flags) (cfg : Config) :
    (∀ r, cfg.process env = .ret r → r.err ≠ none → r.code = "") ∧
    (∀ trace eff, main env fl = .ret trace → eff ∈ trace → eff.isOutput = true →
      ∃ code, fl.toConfig.process env = .ret ⟨code, none⟩ ∧ eff.written = some code) := by
  constructor
  · intro r h herr
    rcases process_ret_cases cfg env r h with ⟨e, rfl⟩ | ⟨_, _, _, _, code, _, _, _, _, _, rfl⟩
    · rfl
    · exact absurd rfl herr
  · intro trace eff h hmem hout
    unfold main at h
    split at h
    · cases h
    · cases h
      simp [fatal] at hmem
      rcases hmem with rfl | rfl <;> simp [Effect.isOutput] at hout
    · rename_i code hp
      refine ⟨code, hp, ?_⟩
      split at h
      · cases h
        simp at hmem
        subst hmem
        rfl
      · split at h
        · cases h
          simp [fatal] at hmem
          rcases hmem with rfl | rfl | rfl
          · rfl
          · simp [Effect.isOutput] at hout
          · simp [Effect.isOutput] at hout
        · cases h
          simp at hmem
          subst hmem
          rfl

/-- C3 at a run where `generate` fails after producing text: `process` returns the
error with nil code, and `main` prints the error and exits without an output action. -/
theorem process_error_emits_nothing_witness :
    (Config.mk "." "Broken" true false).process brokenEnv =
        .ret ⟨"", some (.generate "unsupported type")⟩ ∧
    (ProcResult.mk "" (some (.generate "unsupported type"))).code = "" ∧
    main brokenEnv { Flags.default with typename := "Broken" } =
        .ret [.stderrPrint (.proc (.generate "unsupported type")), .exit 1] ∧
    (∃ code, ({ Flags.default with typename := "Tx" } : Flags).toConfig.process demoEnv =
        .ret ⟨code, none⟩ ∧
      (Effect.stdoutWrite (headerText ++
        "package demo\nfunc (obj *Tx) EncodeRLP(w io.Writer) error\n")).written = some code) :=
  ⟨by decide,
   (process_error_emits_nothing brokenEnv Flags.default (Config.mk "." "Broken" true false)).1
     _ (by decide) (by decide),
   by decide,
   (process_error_emits_nothing demoEnv { Flags.default with typename := "Tx" }
     (Config.mk "." "Tx" true false)).2 _ _ (by decide) (List.mem_singleton.mpr rfl) rfl⟩

end Rlpgen

namespace Rlpgen

open Go

/-- The header is the marker line, a blank line, the two build-constraint lines and a blank line. -/
lemma headerText_lines :
    headerText =
      "// Code generated by rlpgen. DO NOT EDIT.\n" ++ "\n" ++
      "//go:build !norlpgen\n" ++ "// +build !norlpgen\n" ++ "\n" := by
  decide

/-- C4: when `Config.process` returns without error, its text is the marker line
`// Code generated by rlpgen. DO NOT EDIT.`, a blank line, the two build-constraint
lines for `!norlpgen` and a blank line, followed by exactly the text that `generate`
returned for the looked-up type and the two flags; and `main` writes this same text,
to standard output when the output flag is `-` and to the named file otherwise. -/
theorem process_success_is_header_then_generated {B : Type} (env : Env B) (cfg : Config)
    (out : String) (text : String) (h : cfg.process env = .ret ⟨text, none⟩) :
    (∃ ps found bctx typ code,
      env.load cfg.Dir = .ok ps ∧ findPackages ps ⟨none, none⟩ = .ok found ∧
      env.newBuildContext found.packageRLP = .ret bctx ∧
      lookupStructType (pkgScope env.Universe found.pkg) cfg.Type_ = .ret (.ok typ) ∧
      env.generate bctx typ cfg.GenerateEncoder cfg.GenerateDecoder = .ret (code, none) ∧
      text = "// Code generated by rlpgen. DO NOT EDIT.\n" ++ "\n" ++
        "//go:build !norlpgen\n" ++ "// +build !norlpgen\n" ++ "\n" ++ code) ∧
    (∃ rest, main env ⟨cfg.Dir, out, cfg.GenerateEncoder, cfg.GenerateDecoder, cfg.Type_⟩ =
      .ret ((if out = "-" then Effect.stdoutWrite text else Effect.fileWrite out text) :: rest)) := by
  constructor
  · rcases process_ret_cases cfg env _ h with ⟨e, he⟩ | ⟨ps, found, bctx, typ, code, h1, h2, h3, h4, h5, h6⟩
    · cases he
    · refine ⟨ps, found, bctx, typ, code, h1, h2, h3, h4, h5, ?_⟩
      rw [← headerText_lines]
      exact congrArg ProcResult.code h6
  · have hc : (Flags.mk cfg.Dir out cfg.GenerateEncoder cfg.GenerateDecoder cfg.Type_).toConfig
        = cfg := rfl
    unfold main
    rw [hc, h]
    by_cases ho : out = "-"
    · exact ⟨[], by simp [ho]⟩
    · cases hw : env.writeFile out text with
      | none => exact ⟨[], by simp [ho, hw]⟩
      | some e => exact ⟨fatal (.write e), by simp [ho, hw]⟩

/-- C4 at a run of the demo environment with the output flag `-`. -/
theorem process_success_is_header_then_generated_witness :
    (Config.mk "." "Tx" true false).process demoEnv =
      .ret ⟨"// Code generated by rlpgen. DO NOT EDIT.\n\n//go:build !norlpgen\n// +build !norlpgen\n\n"
        ++ "package demo\nfunc (obj *Tx) EncodeRLP(w io.Writer) error\n", none⟩ ∧
    (∃ rest, main demoEnv ⟨".", "-", true, false, "Tx"⟩ =
      .ret ((if "-" = "-" then Effect.stdoutWrite
          ("// Code generated by rlpgen. DO NOT EDIT.\n\n//go:build !norlpgen\n// +build !norlpgen\n\n"
            ++ "package demo\nfunc (obj *Tx) EncodeRLP(w io.Writer) error\n")
        else Effect.fileWrite "-"
          ("// Code generated by rlpgen. DO NOT EDIT.\n\n//go:build !norlpgen\n// +build !norlpgen\n\n"
            ++ "package demo\nfunc (obj *Tx) EncodeRLP(w io.Writer) error\n")) :: rest)) :=
  ⟨by decide,
   (process_success_is_header_then_generated demoEnv (Config.mk "." "Tx" true false) "-" _
     (by decide)).2⟩

/-- The package that the loop of `process` leaves in `pkg` is the initial one or the
`Types` of one of the loaded packages. -/
lemma findPackages_pkg (ps : List Package) (acc found : Found)
    (h : findPackages ps acc = .ok found) :
    found.pkg = acc.pkg ∨ ∃ p ∈ ps, p.Types = found.pkg := by
  induction ps generalizing acc with
  | nil =>
    simp [findPackages] at h
    left; rw [h]
  | cons p rest ih =>
    unfold findPackages at h
    split at h
    · cases h
    · split at h
      · rcases ih _ h with h1 | ⟨q, hq, hq2⟩
        · left; simpa using h1
        · right; exact ⟨q, List.mem_cons_of_mem _ hq, hq2⟩
      · rcases ih _ h with h1 | ⟨q, hq, hq2⟩
        · right; exact ⟨p, List.mem_cons_self _ _, by simpa using h1.symm⟩
        · right; exact ⟨q, List.mem_cons_of_mem _ hq, hq2⟩

/-- C5, as the code has it: with both flags false `Config.process` of the demo run
returns the header and the generator's text, with no error. -/
theorem process_accepts_both_flags_false :
    (Config.mk "." "Tx" false false).GenerateEncoder = false ∧
    (Config.mk "." "Tx" false false).GenerateDecoder = false ∧
    (Config.mk "." "Tx" false false).process demoEnv =
      .ret ⟨headerText ++ "package demo\n", none⟩ := by
  decide

/-- C5 amended: `Config.process` has no check of the two flags, it hands them to
`generate` and returns the header and the generated text whenever loading, the type
lookup and `generate` succeed, whatever the flags are. A request with an empty type
name yields no text: when no scope binds the empty identifier, `process` returns an
error with nil code, unless `newBuildContext` panics first. -/
theorem process_forwards_flags_rejects_empty_type {B : Type} (env : Env B) (cfg : Config)
    (hU : env.Universe.Lookup "" = none)
    (hS : ∀ ps p tp, env.load cfg.Dir = .ok ps → p ∈ ps → p.Types = some tp →
      tp.scope.Lookup "" = none) :
    (cfg.Type_ = "" →
      (∃ e, cfg.process env = .ret ⟨"", some e⟩) ∨
      (cfg.process env = .panic ∧ ∃ p, env.newBuildContext p = .panic)) ∧
    (∀ ps found bctx typ code,
      env.load cfg.Dir = .ok ps → ps.length ≠ 0 → findPackages ps ⟨none, none⟩ = .ok found →
      env.newBuildContext found.packageRLP = .ret bctx →
      lookupStructType (pkgScope env.Universe found.pkg) cfg.Type_ = .ret (.ok typ) →
      env.generate bctx typ cfg.GenerateEncoder cfg.GenerateDecoder = .ret (code, none) →
      cfg.process env = .ret ⟨headerText ++ code, none⟩) := by
  constructor
  · intro hT
    unfold Config.process
    cases hload : env.load cfg.Dir with
    | error e => exact Or.inl ⟨_, rfl⟩
    | ok ps =>
      by_cases hlen : ps.length = 0
      · simp only [hlen, if_true]; exact Or.inl ⟨_, rfl⟩
      · simp only [hlen, if_false]
        cases hfound : findPackages ps ⟨none, none⟩ with
        | error e => exact Or.inl ⟨_, rfl⟩
        | ok found =>
          dsimp only
          cases hb : env.newBuildContext found.packageRLP with
          | panic => exact Or.inr ⟨rfl, _, hb⟩
          | ret bctx =>
            dsimp only
            have hscope : (pkgScope env.Universe found.pkg).Lookup "" = none := by
              cases hp : found.pkg with
              | none => simpa [pkgScope] using hU
              | some tp =>
                rcases findPackages_pkg ps _ found hfound with h1 | ⟨p, hp1, hp2⟩
                · simp [hp] at h1
                · simpa [pkgScope] using hS ps p tp hload hp1 (hp2.trans hp)
            have hl : lookupStructType (pkgScope env.Universe found.pkg) cfg.Type_ =
                .ret (.error "no such identifier") := by
              simp [lookupStructType, lookupType, hT, hscope]
            simp only [hl]
            exact Or.inl ⟨_, rfl⟩
  · intro ps found bctx typ code h1 hlen h2 h3 h4 h5
    unfold Config.process
    simp only [h1, hlen, if_false, h2, h3, h4, h5]

/-- C5 amended, at the demo run: the empty type name is rejected with nil code, and
the request for `Tx` with both flags false succeeds. -/
theorem process_forwards_flags_rejects_empty_type_witness :
    ((∃ e, (Config.mk "." "" false false).process demoEnv = .ret ⟨"", some e⟩) ∨
      ((Config.mk "." "" false false).process demoEnv = .panic ∧
        ∃ p, demoEnv.newBuildContext p = .panic)) ∧
    (Config.mk "." "" false false).process demoEnv =
      .ret ⟨"", some (.cantFind "" (some ⟨"demo", "example.com/demo", demoScope⟩)
        "no such identifier")⟩ :=
  ⟨(process_forwards_flags_rejects_empty_type demoEnv (Config.mk "." "" false false) rfl
      (by
        intro ps p tp h hp ht
        have hps : ps = demoPackages := by
          have : (Except.ok demoPackages : Except String (List Package)) = .ok ps := h
          exact (Except.ok.inj this).symm
        subst hps
        simp [demoPackages] at hp
        rcases hp with rfl | rfl
        · simp at ht; subst ht; rfl
        · simp at ht; subst ht; rfl)).1 rfl,
   by decide⟩

end Rlpgen

namespace CoreTypes

open Go

/-! ## `Cost` -/

/-- Objects allocated earlier keep their address when the heap grows. -/
lemma getElem?_append_old (cells xs : List Int) (a : Nat) (v : Int)
    (h : cells[a]? = some v) : (cells ++ xs)[a]? = some v := by
  have hlt : a < cells.length := by
    by_contra hge
    rw [List.getElem?_eq_none (Nat.le_of_not_lt hge)] at h
    cases h
  rw [List.getElem?_append_left hlt, h]

/-- Overwriting the `k`-th object allocated after `cells`. -/
lemma set_append_new (cells xs : List Int) (k : Nat) (v : Int) :
    (cells ++ xs).set (cells.length + k) v = cells ++ xs.set k v := by
  rw [List.set_append]
  simp

/-- C7: for a transaction whose gas is a `uint64` and whose `gasPrice` and `value`
point to numbers `gp` and `v`, `Cost` returns a pointer to a fresh number holding
exactly `gas * gp + v` as an unbounded integer, and every number that existed
before the call, among them `gasPrice` and `value`, still holds its old value. -/
theorem Cost_exact_and_frame (h : BigHeap) (tx : TransactionFast) (gp v : Int)
    (hgas : tx.gas < 2 ^ 64)
    (hgp : h.load tx.gasPrice = some gp) (hv : h.load tx.value = some v) :
    ∃ h2 total, tx.Cost h = .ret (h2, total) ∧
      h2.load (some total) = some ((tx.gas : Int) * gp + v) ∧
      h.cells.length ≤ total ∧
      (∀ a, a < h.cells.length → h2.cells[a]? = h.cells[a]?) ∧
      h2.load tx.gasPrice = some gp ∧ h2.load tx.value = some v := by
  obtain ⟨cells⟩ := h
  cases hp : tx.gasPrice with
  | none => simp [BigHeap.load, hp] at hgp
  | some a =>
    cases hq : tx.value with
    | none => simp [BigHeap.load, hq] at hv
    | some b =>
      simp only [BigHeap.load, hp, hq] at hgp hv
      have hu : uint64 tx.gas = tx.gas := Nat.mod_eq_of_lt hgas
      refine ⟨⟨cells ++ [gp * (tx.gas : Int) + v, gp, (tx.gas : Int), v]⟩, cells.length, ?_, ?_, ?_, ?_, ?_, ?_⟩
      · have e1 : (cells ++ [(0 : Int)] ++ [0])[a]? = some gp := by
          rw [List.append_assoc]; exact getElem?_append_old _ _ _ _ hgp
        have s1 : (cells ++ [(0 : Int)] ++ [0]).set (cells.length + 1) gp = cells ++ [0, gp] := by
          rw [List.append_assoc, set_append_new]; rfl
        have s2 : (cells ++ [(0 : Int), gp] ++ [0]).set (cells.length + 2) (tx.gas : Int)
            = cells ++ [0, gp, (tx.gas : Int)] := by
          rw [List.append_assoc, set_append_new]; rfl
        have l1 : (cells ++ [(0 : Int), gp, (tx.gas : Int)])[cells.length + 1]? = some gp := by
          rw [List.getElem?_append_right (by omega)]; simp
        have l2 : (cells ++ [(0 : Int), gp, (tx.gas : Int)])[cells.length + 2]?
            = some (tx.gas : Int) := by
          rw [List.getElem?_append_right (by omega)]; simp
        have s3 : (cells ++ [(0 : Int), gp, (tx.gas : Int)]).set cells.length (gp * (tx.gas : Int))
            = cells ++ [gp * (tx.gas : Int), gp, (tx.gas : Int)] := by
          simp [List.set_append]
        have e2 : (cells ++ [gp * (tx.gas : Int), gp, (tx.gas : Int)] ++ [0])[b]? = some v := by
          rw [List.append_assoc]; exact getElem?_append_old _ _ _ _ hv
        have s4 : (cells ++ [gp * (tx.gas : Int), gp, (tx.gas : Int)] ++ [0]).set (cells.length + 3) v
            = cells ++ [gp * (tx.gas : Int), gp, (tx.gas : Int), v] := by
          rw [List.append_assoc, set_append_new]; rfl
        have l3 : (cells ++ [gp * (tx.gas : Int), gp, (tx.gas : Int), v])[cells.length]?
            = some (gp * (tx.gas : Int)) := by
          rw [List.getElem?_append_right (by omega)]; simp
        have l4 : (cells ++ [gp * (tx.gas : Int), gp, (tx.gas : Int), v])[cells.length + 3]?
            = some v := by
          rw [List.getElem?_append_right (by omega)]; simp
        have s5 : (cells ++ [gp * (tx.gas : Int), gp, (tx.gas : Int), v]).set cells.length
            (gp * (tx.gas : Int) + v) = cells ++ [gp * (tx.gas : Int) + v, gp, (tx.gas : Int), v] := by
          simp [List.set_append]
        simp only [TransactionFast.Cost, TransactionFast.GasPrice, TransactionFast.Value,
          TransactionFast.Gas, BigHeap.new, bigSet, bigSetUint64, bigMul, bigAdd, BigHeap.load,
          BigHeap.store, hp, hq, hu, List.length_append, List.length_singleton, List.length_cons,
          List.length_nil, e1, s1, s2, l1, l2, s3, e2, s4, l3, l4, s5, Int.ofNat_eq_coe]
      · show (cells ++ [gp * (tx.gas : Int) + v, gp, (tx.gas : Int), v])[cells.length]? = _
        rw [List.getElem?_append_right (by omega)]
        simp [mul_comm]
      · exact Nat.le_refl _
      · intro x hx
        exact List.getElem?_append_left hx
      · exact getElem?_append_old _ _ _ _ hgp
      · exact getElem?_append_old _ _ _ _ hv

/-- C7 at `demoTx`: gas `2^64 - 1`, gas price 3 and value 7. -/
theorem Cost_exact_and_frame_witness :
    ∃ h2 total, demoTx.Cost demoHeap = .ret (h2, total) ∧
      h2.load (some total) = some (((2 ^ 64 - 1 : Nat) : Int) * 3 + 7) ∧
      demoHeap.cells.length ≤ total ∧
      (∀ a, a < demoHeap.cells.length → h2.cells[a]? = demoHeap.cells[a]?) ∧
      h2.load demoTx.gasPrice = some 3 ∧ h2.load demoTx.value = some 7 :=
  Cost_exact_and_frame demoHeap demoTx 3 7 (by decide) rfl rfl

end CoreTypes

namespace CoreTypes

open Go

/-! ## `TxDifferenceFast` -/

/-- Indexing a slice reads the corresponding element of its element list. -/
lemma SliceMem.index_eq_elems (m : SliceMem) (s : Slice) (i : Nat) :
    m.index s i = (m.elems s)[i]? := by
  unfold SliceMem.index SliceMem.elems
  by_cases h : i < s.len
  · cases hm : m.arrays[s.arr]? with
    | none => simp [h]
    | some array => simp [h, List.getElem?_take, List.getElem?_drop]
  · simp [h, List.getElem?_take]

/-- A slice of an old array has the same elements after a new array is allocated. -/
lemma SliceMem.elems_append_old (M : List (List TxPtr)) (K : List TxPtr) (s : Slice)
    (h : s.arr < M.length) :
    (SliceMem.mk (M ++ [K])).elems s = (SliceMem.mk M).elems s := by
  unfold SliceMem.elems
  simp [List.getElem?_append_left h]

/-- A valid slice lies inside an allocated array. -/
lemma SliceMem.valid_iff (m : SliceMem) (s : Slice) (h : m.valid s = true) :
    ∃ array, m.arrays[s.arr]? = some array ∧ s.off + s.len ≤ array.length := by
  unfold SliceMem.valid at h
  cases ha : m.arrays[s.arr]? with
  | none => rw [ha] at h; cases h
  | some array =>
    rw [ha] at h
    exact ⟨array, rfl, of_decide_eq_true h⟩

/-- The length of the element list of a valid slice. -/
lemma SliceMem.length_elems (m : SliceMem) (s : Slice) (h : m.valid s = true) :
    (m.elems s).length = s.len := by
  obtain ⟨array, h1, h2⟩ := SliceMem.valid_iff m s h
  unfold SliceMem.elems
  simp [h1]
  omega

/-- Appending to `keep` below its capacity writes into its own array. -/
lemma append_keep (M : List (List TxPtr)) (cap : Nat) (K : List TxPtr) (x : TxPtr)
    (h : K.length < cap) :
    (keepMem M cap K).append (keepSlice M cap K) x
      = (keepMem M cap (K ++ [x]), keepSlice M cap (K ++ [x])) := by
  unfold SliceMem.append keepMem keepSlice
  simp only [h, if_true, List.length_append, List.length_singleton, Prod.mk.injEq,
    SliceMem.mk.injEq, and_true]
  have h1 : (M ++ [K ++ List.replicate (cap - K.length) (none : TxPtr)])[M.length]?
      = some (K ++ List.replicate (cap - K.length) none) := by
    rw [List.getElem?_append_right (Nat.le_refl _)]; simp
  rw [h1]
  obtain ⟨n, hn⟩ : ∃ n, cap - K.length = n + 1 := ⟨cap - K.length - 1, by omega⟩
  have h2 : cap - (K.length + 1) = n := by omega
  rw [hn, h2]
  simp [List.set_append, List.replicate_succ]

/-- The first loop collects the hashes of the elements it visits. -/
lemma removeLoop_spec (m : SliceMem) (b : Slice)
    (hnb : ∀ x ∈ m.elems b, TxPtr.isNil x = false) (hlen : (m.elems b).length = b.len) :
    ∀ (fuel i : Nat) (remove : HashSet), i + fuel = b.len →
      ∃ r, removeLoop m b fuel i remove = .ret r ∧
        ∀ h, h ∈ r ↔ h ∈ remove ∨ ∃ tx, some tx ∈ (m.elems b).drop i ∧ tx.hash = h := by
  intro fuel
  induction fuel with
  | zero =>
    intro i remove hi
    refine ⟨remove, rfl, fun h => ?_⟩
    have : (m.elems b).drop i = [] := List.drop_eq_nil_of_le (by omega)
    simp [this]
  | succ fuel ih =>
    intro i remove hi
    have hlt : i < (m.elems b).length := by omega
    have hget : (m.elems b)[i]? = some ((m.elems b)[i]) := List.getElem?_eq_getElem hlt
    have hmem : (m.elems b)[i] ∈ m.elems b := List.getElem_mem _
    have hdrop : (m.elems b).drop i = (m.elems b)[i] :: (m.elems b).drop (i + 1) :=
      List.drop_eq_getElem_cons hlt
    cases hx : (m.elems b)[i] with
    | none =>
      have := hnb _ hmem
      rw [hx] at this
      cases this
    | some tx =>
      obtain ⟨r, hr, hspec⟩ := ih (i + 1) (HashSet.insert remove tx.hash) (by omega)
      refine ⟨r, ?_, fun h => ?_⟩
      · simp only [removeLoop, SliceMem.index_eq_elems, hget, hx]
        exact hr
      · rw [hspec h, hdrop, hx]
        have hins : h ∈ HashSet.insert remove tx.hash ↔ h ∈ remove ∨ h = tx.hash := by
          unfold HashSet.insert
          by_cases hin : tx.hash ∈ remove
          · simp only [hin, if_true]
            constructor
            · exact Or.inl
            · rintro (h1 | rfl)
              · exact h1
              · exact hin
          · simp only [hin, if_false, List.mem_cons]
            tauto
        rw [hins]
        constructor
        · rintro ((h1 | rfl) | ⟨ty, hty, rfl⟩)
          · exact Or.inl h1
          · exact Or.inr ⟨tx, List.mem_cons_self _ _, rfl⟩
          · exact Or.inr ⟨ty, List.mem_cons_of_mem _ hty, rfl⟩
        · rintro (h1 | ⟨ty, hty, rfl⟩)
          · exact Or.inl (Or.inl h1)
          · rcases List.mem_cons.mp hty with heq | hty2
            · cases heq
              exact Or.inl (Or.inr rfl)
            · exact Or.inr ⟨ty, hty2, rfl⟩

/-- The second loop appends to `keep`, in order, the visited elements whose hash is not in `remove`. -/
lemma keepLoop_spec (M : List (List TxPtr)) (a : Slice) (remove : HashSet)
    (harr : a.arr < M.length)
    (hna : ∀ x ∈ (SliceMem.mk M).elems a, TxPtr.isNil x = false)
    (hlen : ((SliceMem.mk M).elems a).length = a.len) :
    ∀ (fuel i : Nat) (K : List TxPtr), i + fuel = a.len → K.length ≤ i →
      keepLoop remove a fuel i (keepMem M a.len K) (keepSlice M a.len K) =
        .ret (keepMem M a.len (K ++ (((SliceMem.mk M).elems a).drop i).filter
                (fun x => decide (∀ h, TxPtr.hash? x = some h → h ∉ remove))),
              keepSlice M a.len (K ++ (((SliceMem.mk M).elems a).drop i).filter
                (fun x => decide (∀ h, TxPtr.hash? x = some h → h ∉ remove)))) := by
  intro fuel
  induction fuel with
  | zero =>
    intro i K hi _
    have : ((SliceMem.mk M).elems a).drop i = [] := List.drop_eq_nil_of_le (by omega)
    simp [keepLoop, this]
  | succ fuel ih =>
    intro i K hi hK
    have hlt : i < ((SliceMem.mk M).elems a).length := by omega
    have hget : ((SliceMem.mk M).elems a)[i]? = some (((SliceMem.mk M).elems a)[i]) :=
      List.getElem?_eq_getElem hlt
    have hmem : ((SliceMem.mk M).elems a)[i] ∈ (SliceMem.mk M).elems a := List.getElem_mem _
    have hdrop : ((SliceMem.mk M).elems a).drop i
        = ((SliceMem.mk M).elems a)[i] :: ((SliceMem.mk M).elems a).drop (i + 1) :=
      List.drop_eq_getElem_cons hlt
    have hidx : (keepMem M a.len K).index a i = some (((SliceMem.mk M).elems a)[i]) := by
      rw [SliceMem.index_eq_elems]
      unfold keepMem
      rw [SliceMem.elems_append_old M _ a harr, hget]
    cases hx : ((SliceMem.mk M).elems a)[i] with
    | none =>
      have := hna _ hmem
      rw [hx] at this
      cases this
    | some tx =>
      rw [hx] at hidx
      rw [hdrop, hx]
      by_cases hin : tx.hash ∈ remove
      · have hf : decide (∀ h, TxPtr.hash? (some tx) = some h → h ∉ remove) = false := by
          simp [TxPtr.hash?, hin]
        simp only [keepLoop, hidx, hin, if_true, List.filter_cons, hf]
        exact ih (i + 1) K (by omega) (by omega)
      · have hf : decide (∀ h, TxPtr.hash? (some tx) = some h → h ∉ remove) = true := by
          simp [TxPtr.hash?, hin]
        simp only [keepLoop, hidx, hin, if_false, List.filter_cons, hf, if_true]
        rw [append_keep M a.len K (some tx) (by omega)]
        have := ih (i + 1) (K ++ [some tx]) (by omega) (by simp; omega)
        simpa [List.append_assoc] using this

/-- C8: for valid slices `a` and `b` of non-nil transactions, `TxDifferenceFast`
returns a slice whose elements are exactly the elements of `a`, in the order and
multiplicity of `a`, whose hash is the hash of no element of `b`; every array that
existed before the call is unchanged, so `a` and `b` have their old elements. -/
theorem TxDifferenceFast_is_difference_by_hash (m : SliceMem) (a b : Slice)
    (ha : m.valid a = true) (hb : m.valid b = true)
    (hna : ∀ x ∈ m.elems a, TxPtr.isNil x = false)
    (hnb : ∀ x ∈ m.elems b, TxPtr.isNil x = false) :
    ∃ m2 keep, TxDifferenceFast m a b = .ret (m2, keep) ∧
      m2.elems keep = differenceByHash (m.elems a) (m.elems b) ∧
      (∀ i, i < m.arrays.length → m2.arrays[i]? = m.arrays[i]?) ∧
      m2.elems a = m.elems a ∧ m2.elems b = m.elems b := by
  obtain ⟨M⟩ := m
  have harr : a.arr < M.length := by
    obtain ⟨array, h1, _⟩ := SliceMem.valid_iff _ a ha
    by_contra hge
    simp only [List.getElem?_eq_none (Nat.le_of_not_lt hge)] at h1
    cases h1
  have hbrr : b.arr < M.length := by
    obtain ⟨array, h1, _⟩ := SliceMem.valid_iff _ b hb
    by_contra hge
    simp only [List.getElem?_eq_none (Nat.le_of_not_lt hge)] at h1
    cases h1
  have hla := SliceMem.length_elems _ a ha
  have hlb := SliceMem.length_elems _ b hb
  have hm1 : (SliceMem.mk M).make a.len = (keepMem M a.len [], keepSlice M a.len []) := by
    simp [SliceMem.make, keepMem, keepSlice]
  have hb1 : (keepMem M a.len []).elems b = (SliceMem.mk M).elems b :=
    SliceMem.elems_append_old M _ b hbrr
  obtain ⟨remove, hrem, hspec⟩ := removeLoop_spec (keepMem M a.len []) b
    (by rw [hb1]; exact hnb) (by rw [hb1]; exact hlb) b.len 0 [] (by omega)
  have hkeep := keepLoop_spec M a remove harr hna hla a.len 0 [] (by omega) (by simp)
  simp only [List.nil_append, List.drop_zero] at hkeep
  refine ⟨keepMem M a.len (List.filter
      (fun x => decide (∀ h, TxPtr.hash? x = some h → h ∉ remove)) ((SliceMem.mk M).elems a)),
    keepSlice M a.len (List.filter
      (fun x => decide (∀ h, TxPtr.hash? x = some h → h ∉ remove)) ((SliceMem.mk M).elems a)),
    ?_, ?_, ?_, ?_, ?_⟩
  · unfold TxDifferenceFast
    simp only [hm1, hrem]
    exact hkeep
  · have hk : ∀ K : List TxPtr, (keepMem M a.len K).elems (keepSlice M a.len K) = K := by
      intro K
      simp [keepMem, keepSlice, SliceMem.elems]
    rw [hk]
    unfold differenceByHash
    apply List.filter_congr
    intro x hx
    cases x with
    | none =>
      have := hna _ hx
      cases this
    | some tx =>
      simp only [decide_eq_decide]
      rw [hb1] at hspec
      constructor
      · intro h y hy heq
        cases y with
        | none => cases heq
        | some ty =>
          simp only [TxPtr.hash?, Option.some.injEq] at heq
          exact h tx.hash rfl ((hspec tx.hash).mpr (Or.inr ⟨ty, by simpa using hy, heq⟩))
      · intro h hh hhx hmem
        simp only [TxPtr.hash?, Option.some.injEq] at hhx
        subst hhx
        rcases (hspec tx.hash).mp hmem with h1 | ⟨ty, hty, hteq⟩
        · cases h1
        · exact h (some ty) (by simpa using hty) (by simp [TxPtr.hash?, hteq])
  · intro i hi
    exact List.getElem?_append_left hi
  · exact SliceMem.elems_append_old M _ a harr
  · exact SliceMem.elems_append_old M _ b hbrr

/-- C8 at `demoMem`: `demoB` overlaps `demoA`, and the hash 7 occurs twice in `demoA`. -/
theorem TxDifferenceFast_is_difference_by_hash_witness :
    ∃ m2 keep, TxDifferenceFast demoMem demoA demoB = .ret (m2, keep) ∧
      m2.elems keep = differenceByHash (demoMem.elems demoA) (demoMem.elems demoB) ∧
      (∀ i, i < demoMem.arrays.length → m2.arrays[i]? = demoMem.arrays[i]?) ∧
      m2.elems demoA = demoMem.elems demoA ∧ m2.elems demoB = demoMem.elems demoB :=
  TxDifferenceFast_is_difference_by_hash demoMem demoA demoB
    (by decide) (by decide) (by decide) (by decide)

end CoreTypes

namespace CoreTypes

open Go

/-! ## `UnmarshalJSON` -/


lemma decodeUint64Ptr_isSome (v : JSON) (p : Option Nat) (h : decodeUint64Ptr v = some p) :
    p.isSome = !v.isNull := by
  cases v <;> simp [decodeUint64Ptr, JSON.isNull] at h ⊢
  · subst h; rfl
  · split at h
    · cases h
    · cases h; rfl

lemma decodeBytesPtr_isSome (v : JSON) (p : Option (List Nat)) (h : decodeBytesPtr v = some p) :
    p.isSome = !v.isNull := by
  cases v <;> simp [decodeBytesPtr, JSON.isNull] at h ⊢
  · subst h; rfl
  · split at h
    · cases h
    · cases h; rfl

lemma decodeStringPtr_isSome (v : JSON) (p : Option String) (h : decodeStringPtr v = some p) :
    p.isSome = !v.isNull := by
  cases v <;> simp [decodeStringPtr, JSON.isNull] at h ⊢
  · subst h; rfl
  · subst h; rfl

lemma decodeBigPtr_isSome (hp : BigHeap) (cur : Option Addr) (v : JSON)
    (r : BigHeap × Option Addr) (h : decodeBigPtr hp cur v = some r) :
    r.2.isSome = !v.isNull := by
  cases v <;> simp [decodeBigPtr, JSON.isNull] at h ⊢
  · subst h; rfl
  · split at h
    · cases h
    · split at h <;> (cases h; rfl)

lemma decodeUint64Value_isNull (v : JSON) (n : Nat) (h : decodeUint64Value v = some n) :
    v.isNull = false := by
  cases v <;> simp [decodeUint64Value, JSON.isNull] at h ⊢

lemma decodeHashValue_isNull (v : JSON) (n : Hash) (h : decodeHashValue v = some n) :
    v.isNull = false := by
  cases v <;> simp [decodeHashValue, JSON.isNull] at h ⊢

/-- Decoding a member sets the selected field exactly when the value is not `null`,
and leaves every other field as it was. -/
lemma decodeField_isSet (st st1 : DecState) (f : Field) (v : JSON)
    (h : decodeField st f v = some st1) (g : Field) :
    st1.dec.isSet g = if g = f then !v.isNull else st.dec.isSet g := by
  cases f <;> simp only [decodeField, Option.map_eq_some'] at h <;>
    obtain ⟨x, hx, rfl⟩ := h
  · have := decodeUint64Value_isNull v x hx
    cases g <;> simp [txFastJSON.isSet, this]
  · have := decodeUint64Ptr_isSome v x hx
    cases g <;> simp [txFastJSON.isSet, this]
  · have := decodeBigPtr_isSome _ _ v x hx
    cases g <;> simp [txFastJSON.isSet, this]
  · have := decodeBigPtr_isSome _ _ v x hx
    cases g <;> simp [txFastJSON.isSet, this]
  · have := decodeBigPtr_isSome _ _ v x hx
    cases g <;> simp [txFastJSON.isSet, this]
  · have := decodeUint64Ptr_isSome v x hx
    cases g <;> simp [txFastJSON.isSet, this]
  · have := decodeBigPtr_isSome _ _ v x hx
    cases g <;> simp [txFastJSON.isSet, this]
  · have := decodeBytesPtr_isSome v x hx
    cases g <;> simp [txFastJSON.isSet, this]
  · have := decodeBigPtr_isSome _ _ v x hx
    cases g <;> simp [txFastJSON.isSet, this]
  · have := decodeStringPtr_isSome v x hx
    cases g <;> simp [txFastJSON.isSet, this]
  · have := decodeStringPtr_isSome v x hx
    cases g <;> simp [txFastJSON.isSet, this]
  · have := decodeUint64Ptr_isSome v x hx
    cases g <;> simp [txFastJSON.isSet, this]
  · have := decodeUint64Ptr_isSome v x hx
    cases g <;> simp [txFastJSON.isSet, this]
  · have := decodeHashValue_isNull v x hx
    cases g <;> simp [txFastJSON.isSet, this]


/-- After an object is decoded, a field is set exactly when the last member that
selects it is not `null`; a field no member selects is as it was. -/
lemma decodeMembers_isSet (members : List (String × JSON)) :
    ∀ (st st1 : DecState), decodeMembers members st = some st1 → ∀ g : Field,
      st1.dec.isSet g =
        match lastMember members g with
        | some v => !v.isNull
        | none => st.dec.isSet g := by
  induction members with
  | nil =>
    intro st st1 h g
    simp only [decodeMembers, Option.some.injEq] at h
    subst h
    rfl
  | cons kv rest ih =>
    obtain ⟨key, v⟩ := kv
    intro st st1 h g
    unfold decodeMembers at h
    unfold lastMember
    cases hf : findField key with
    | none =>
      simp only [hf] at h
      rw [ih st st1 h g]
      cases lastMember rest g <;> simp
    | some f =>
      simp only [hf] at h
      cases hd : decodeField st f v with
      | none => simp only [hd] at h; cases h
      | some st2 =>
        simp only [hd] at h
        rw [ih st2 st1 h g, decodeField_isSet st st2 f v hd g]
        cases lastMember rest g with
        | some w => rfl
        | none =>
          by_cases hg : g = f
          · subst hg; simp
          · have : ¬ f = g := fun e => hg e.symm
            simp [hg, this]

/-- Decoding a member changes `Type` only when the member selects it. -/
lemma decodeField_Type (st st1 : DecState) (f : Field) (v : JSON)
    (h : decodeField st f v = some st1) :
    st1.dec.Type_ = if f = .type then typeValue v else st.dec.Type_ := by
  cases f <;> simp only [decodeField, Option.map_eq_some'] at h <;>
    obtain ⟨x, hx, rfl⟩ := h <;> simp
  cases v <;> simp [decodeUint64Value, typeValue] at hx ⊢
  rw [hx]; rfl

/-- After an object is decoded, `Type` holds the number of the last `type` member. -/
lemma decodeMembers_Type (members : List (String × JSON)) :
    ∀ (st st1 : DecState), decodeMembers members st = some st1 →
      st1.dec.Type_ =
        match lastMember members .type with
        | some v => typeValue v
        | none => st.dec.Type_ := by
  induction members with
  | nil =>
    intro st st1 h
    simp only [decodeMembers, Option.some.injEq] at h
    subst h
    rfl
  | cons kv rest ih =>
    obtain ⟨key, v⟩ := kv
    intro st st1 h
    unfold decodeMembers at h
    unfold lastMember
    cases hf : findField key with
    | none =>
      simp only [hf] at h
      rw [ih st st1 h]
      cases lastMember rest .type <;> simp
    | some f =>
      simp only [hf] at h
      cases hd : decodeField st f v with
      | none => simp only [hd] at h; cases h
      | some st2 =>
        simp only [hd] at h
        rw [ih st2 st1 h, decodeField_Type st st2 f v hd]
        cases lastMember rest .type with
        | some w => rfl
        | none =>
          by_cases hg : f = .type
          · subst hg; simp
          · simp [hg]

/-- The error result of `UnmarshalJSON` in terms of the decoded struct `dec`. -/
lemma UnmarshalJSON_err_of_dec (now : Nat) (h : BigHeap) (t : TransactionFast) (input : JSON)
    (st : DecState) (hd : jsonUnmarshal h input = some st) :
    (t.UnmarshalJSON now h input).err =
      if st.dec.Type_ = LegacyTxType then
        (requiredFields.find? (fun f => !st.dec.isSet f)).map
          (fun f => UnmarshalError.missingRequiredField f.name)
      else some .ErrTxTypeNotSupported := by
  obtain ⟨h1, dec⟩ := st
  unfold TransactionFast.UnmarshalJSON
  rw [hd]
  by_cases hT : dec.Type_ = LegacyTxType
  · simp only [hT, if_true]
    cases h1n : dec.Nonce <;> simp [requiredFields, txFastJSON.isSet, Field.name, h1n]
    cases h2 : dec.GasPrice <;> simp [h2]
    cases h3 : dec.Gas <;> simp [h3]
    cases h4 : dec.Value <;> simp [h4]
    cases h5 : dec.Data <;> simp [h5]
    cases h6 : dec.R <;> simp [h6]
  · simp only [hT, if_false]

/-- The optional fields of the receiver after a successful `UnmarshalJSON`. -/
lemma UnmarshalJSON_optional_of_dec (now : Nat) (h : BigHeap) (t : TransactionFast)
    (input : JSON) (st : DecState) (hd : jsonUnmarshal h input = some st)
    (hok : (t.UnmarshalJSON now h input).err = none) :
    (t.UnmarshalJSON now h input).t.to_ = st.dec.To.getD "" ∧
    (t.UnmarshalJSON now h input).t.from_ = st.dec.From.getD "" ∧
    (t.UnmarshalJSON now h input).t.BlockNumber = uint64 (st.dec.BlockNumber.getD 0) ∧
    (t.UnmarshalJSON now h input).t.time = now := by
  obtain ⟨h1, dec⟩ := st
  unfold TransactionFast.UnmarshalJSON at hok ⊢
  rw [hd] at hok ⊢
  by_cases hT : dec.Type_ = LegacyTxType
  · simp only [hT, if_true] at hok ⊢
    cases h1n : dec.Nonce <;> simp [h1n] at hok ⊢
    cases h2 : dec.GasPrice <;> simp [h2] at hok ⊢
    cases h3 : dec.Gas <;> simp [h3] at hok ⊢
    cases h4 : dec.Value <;> simp [h4] at hok ⊢
    cases h5 : dec.Data <;> simp [h5] at hok ⊢
    cases h6 : dec.R <;> simp [h6] at hok ⊢
    refine ⟨?_, ?_, ?_⟩
    · cases dec.From <;> cases dec.BlockNumber <;> cases dec.To <;> rfl
    · cases dec.From <;> cases dec.BlockNumber <;> rfl
    · cases dec.BlockNumber <;> rfl
  · simp [hT] at hok


/-- After `json.Unmarshal` of an object, a pointer field of `dec` is set exactly when
the field is present in the object, and `Type` is the declared type. -/
lemma jsonUnmarshal_object (h : BigHeap) (members : List (String × JSON)) (st : DecState)
    (hd : jsonUnmarshal h (.object members) = some st) :
    st.dec.Type_ = declaredType members ∧
    ∀ g : Field, g ≠ .type → g ≠ .hash → st.dec.isSet g = present members g := by
  have hm : decodeMembers members ⟨h, txFastJSON.zero⟩ = some st := hd
  constructor
  · rw [decodeMembers_Type members _ st hm]
    unfold declaredType
    cases lastMember members .type <;> rfl
  · intro g h1 h2
    rw [decodeMembers_isSet members _ st hm g]
    unfold present
    cases lastMember members g with
    | some v => rfl
    | none => cases g <;> first | rfl | exact absurd rfl h1 | exact absurd rfl h2

/-- C9 as the code has it: an object that declares no type and in which all six
required fields are present, the field `gas` as the JSON number 21000, is not
accepted; `UnmarshalJSON` returns the error of `json.Unmarshal`. -/
theorem UnmarshalJSON_rejects_number_valued_gas :
    declaredType demoNumberGasInput = LegacyTxType ∧
    (∀ f ∈ requiredFields, present demoNumberGasInput f = true) ∧
    (demoTx.UnmarshalJSON 99 demoHeap (.object demoNumberGasInput)).err = some .json := by
  decide

/-- C9 amended: when `json.Unmarshal` rejects the object, `UnmarshalJSON` returns that
error and leaves the receiver as it was. When `json.Unmarshal` accepts the object,
`UnmarshalJSON` succeeds if and only if the declared type is the legacy type (zero,
also without a `type` member) and the six fields nonce, gasPrice, gas, value, input
and r are present with a value other than `null`; for the legacy type it fails with
the missing-required-field error of the first of them that is not present, for every
other type with `ErrTxTypeNotSupported`; and after a success the fields to, from and
blockNumber are `""`, `""` and 0 when they are not present. -/
theorem UnmarshalJSON_on_object (now : Nat) (h : BigHeap) (t : TransactionFast)
    (members : List (String × JSON)) :
    (jsonUnmarshal h (.object members) = none →
      t.UnmarshalJSON now h (.object members) = ⟨h, t, some .json⟩) ∧
    (∀ st, jsonUnmarshal h (.object members) = some st →
      ((t.UnmarshalJSON now h (.object members)).err = none ↔
        declaredType members = LegacyTxType ∧
        ∀ f ∈ requiredFields, present members f = true) ∧
      (declaredType members = LegacyTxType → ∀ f, firstMissing members = some f →
        (t.UnmarshalJSON now h (.object members)).err =
          some (.missingRequiredField f.name)) ∧
      (declaredType members ≠ LegacyTxType →
        (t.UnmarshalJSON now h (.object members)).err = some .ErrTxTypeNotSupported) ∧
      ((t.UnmarshalJSON now h (.object members)).err = none →
        (present members .to = false →
          (t.UnmarshalJSON now h (.object members)).t.to_ = "") ∧
        (present members .from = false →
          (t.UnmarshalJSON now h (.object members)).t.from_ = "") ∧
        (present members .blockNumber = false →
          (t.UnmarshalJSON now h (.object members)).t.BlockNumber = 0))) := by
  constructor
  · intro hd
    unfold TransactionFast.UnmarshalJSON
    rw [hd]
  · intro st hd
    obtain ⟨hT, hset⟩ := jsonUnmarshal_object h members st hd
    have herr := UnmarshalJSON_err_of_dec now h t _ st hd
    have hfind : requiredFields.find? (fun f => !st.dec.isSet f) = firstMissing members := by
      unfold firstMissing requiredFields
      simp only [List.find?, hset .nonce (by decide) (by decide),
        hset .gasPrice (by decide) (by decide), hset .gas (by decide) (by decide),
        hset .value (by decide) (by decide), hset .input (by decide) (by decide),
        hset .r (by decide) (by decide)]
    rw [hfind, hT] at herr
    have hnone : firstMissing members = none ↔ ∀ f ∈ requiredFields, present members f = true := by
      unfold firstMissing
      rw [List.find?_eq_none]
      simp
    refine ⟨?_, ?_, ?_, ?_⟩
    · rw [herr]
      by_cases hL : declaredType members = LegacyTxType
      · simp only [hL, if_true, Option.map_eq_none', true_and]
        exact hnone
      · simp [hL]
    · intro hL f hf
      rw [herr]
      simp [hL, hf]
    · intro hL
      rw [herr]
      simp [hL]
    · intro hok
      obtain ⟨h1, h2, h3, _⟩ := UnmarshalJSON_optional_of_dec now h t _ st hd hok
      refine ⟨?_, ?_, ?_⟩
      · intro hp
        have := hset .to (by decide) (by decide)
        rw [hp] at this
        simp only [txFastJSON.isSet] at this
        rw [h1]
        cases hto : st.dec.To with
        | none => rfl
        | some s => rw [hto] at this; cases this
      · intro hp
        have := hset .from (by decide) (by decide)
        rw [hp] at this
        simp only [txFastJSON.isSet] at this
        rw [h2]
        cases hto : st.dec.From with
        | none => rfl
        | some s => rw [hto] at this; cases this
      · intro hp
        have := hset .blockNumber (by decide) (by decide)
        rw [hp] at this
        simp only [txFastJSON.isSet] at this
        rw [h3]
        cases hto : st.dec.BlockNumber with
        | none => rfl
        | some s => rw [hto] at this; cases this

/-- C9 amended, at four inputs: a rejected object, an accepted legacy object without
optional fields, a legacy object without `gas`, and an object of type 2. -/
theorem UnmarshalJSON_on_object_witness :
    demoTx.UnmarshalJSON 99 demoHeap (.object demoNumberGasInput) =
      ⟨demoHeap, demoTx, some .json⟩ ∧
    ((demoTx.UnmarshalJSON 99 demoHeap (.object demoLegacyInput)).err = none ∧
      (demoTx.UnmarshalJSON 99 demoHeap (.object demoLegacyInput)).t.to_ = "" ∧
      (demoTx.UnmarshalJSON 99 demoHeap (.object demoLegacyInput)).t.from_ = "" ∧
      (demoTx.UnmarshalJSON 99 demoHeap (.object demoLegacyInput)).t.BlockNumber = 0) ∧
    (demoTx.UnmarshalJSON 99 demoHeap (.object demoMissingGasInput)).err =
      some (.missingRequiredField "gas") ∧
    (demoTx.UnmarshalJSON 99 demoHeap (.object demoTypedInput)).err =
      some .ErrTxTypeNotSupported := by
  have hA := (UnmarshalJSON_on_object 99 demoHeap demoTx demoNumberGasInput).1 (by decide)
  have hB := (UnmarshalJSON_on_object 99 demoHeap demoTx demoLegacyInput).2 _
    (Option.get_mem (by decide : (jsonUnmarshal demoHeap (.object demoLegacyInput)).isSome))
  have hC := (UnmarshalJSON_on_object 99 demoHeap demoTx demoMissingGasInput).2 _
    (Option.get_mem (by decide : (jsonUnmarshal demoHeap (.object demoMissingGasInput)).isSome))
  have hD := (UnmarshalJSON_on_object 99 demoHeap demoTx demoTypedInput).2 _
    (Option.get_mem (by decide : (jsonUnmarshal demoHeap (.object demoTypedInput)).isSome))
  have hok := hB.1.mpr ⟨by decide, by decide⟩
  exact ⟨hA,
    ⟨hok, (hB.2.2.2 hok).1 (by decide), (hB.2.2.2 hok).2.1 (by decide),
      (hB.2.2.2 hok).2.2 (by decide)⟩,
    hC.2.1 (by decide) .gas (by decide),
    hD.2.2.1 (by decide)⟩

end CoreTypes

namespace RlpModel

/-! ## The end-to-end scenario on the modelled wire format -/

/-- C6 as the length-prefix rule has it: the encoding of the record `nonce = 9`,
`payload = "ab"` is not `c3 09 82 61 62`, because the payload `09 82 61 62` has four
bytes; and the decoder rejects `c3 09 82 61 62`, whose header announces three. -/
theorem encoder_output_is_not_c3 :
    write demoRecord demoRecordValue ≠ .ok [0xc3, 0x09, 0x82, 0x61, 0x62] ∧
    fieldsSize (.cons "nonce" (.uint 64) false (.cons "payload" .byteSlice false .nil))
      [.uint 9, .bytes [0x61, 0x62]] = 4 ∧
    read demoRecord [0xc3, 0x09, 0x82, 0x61, 0x62] = .error .DecodeFormatError := by
  refine ⟨?_, rfl, rfl⟩
  have h : write demoRecord demoRecordValue = .ok [0xc4, 0x09, 0x82, 0x61, 0x62] := rfl
  rw [h]
  intro hh
  injection hh with hh
  simp at hh

/-- C6 amended: for the record `nonce = 9`, `payload = "ab"` the encoder outputs
exactly the bytes `c4 09 82 61 62` (list header `0xc0 + 4`, then `0x09`, then the
string header `0x80 + 2` and the bytes `0x61 0x62`), and the decoder applied to these
bytes yields the record and consumes all of them. -/
theorem encoder_output_is_c4_and_decodes :
    write demoRecord demoRecordValue = .ok [0xc4, 0x09, 0x82, 0x61, 0x62] ∧
    read demoRecord [0xc4, 0x09, 0x82, 0x61, 0x62] = .ok (demoRecordValue, []) :=
  ⟨rfl, rfl⟩

end RlpModel
